import Mathlib

/-!
Shallow embedding of the scoring / normalization / ranking-comparison engine
of `src/ip-port/scripts/compare-v3-rankings.py`.

Python numbers are modelled as real numbers (`ℝ`); a value that may be the
Python `None` is modelled as `Option ℝ`.  A patent record (a Python dict from
metric name to value) is modelled as a function `String → Option ℝ`, where
`none` stands for an absent key (or a stored `None`); `dict.get(k, d)` is
`(p k).getD d`.  A weight map is `String → ℝ` with absent keys reading as `0`,
which matches both `weights.get(f)` truthiness tests and `weights.get(f, 0)`.
Python's `sorted(..., key=..., reverse=True)` is a stable descending sort and
is modelled by `List.mergeSort` with the comparator `b.threshold ≤ a.threshold`.
Python dicts preserve insertion order and overwriting a key keeps its original
position; `dictInsert` below reproduces that.
-/

open Real

namespace CompareV3

/-- A patent's metric map: metric name to optional numeric value. -/
abbrev Patent := String → Option ℝ

/-- A flat additive weight map (absent fields read as weight `0`). -/
abbrev Weights := String → ℝ

/-- Python `patent.get(field, d)`. -/
noncomputable def pget (p : Patent) (f : String) (d : ℝ) : ℝ := (p f).getD d

/-! ### V2 normalization helpers (lines 297-329 of the source) -/

/-- Source `v2_normalize_sqrt`: `0` for `None` or non-positive input, else
`min(1, sqrt(value)/sqrt(max_val))`. -/
noncomputable def v2_normalize_sqrt (value : Option ℝ) (max_val : ℝ) : ℝ :=
  match value with
  | none => 0
  | some v => if v ≤ 0 then 0 else min 1 (Real.sqrt v / Real.sqrt max_val)

/-- Source `v2_normalize_linear`: `0` for `None`, else `min(1, value/max_val)`
(note: no clamp from below). -/
noncomputable def v2_normalize_linear (value : Option ℝ) (max_val : ℝ) : ℝ :=
  match value with
  | none => 0
  | some v => min 1 (v / max_val)

/-- Source `v2_normalize_years`: `0` for `None` or non-positive, `1` from 15
years on, else `(years/15)^1.5`. -/
noncomputable def v2_normalize_years (years : Option ℝ) : ℝ :=
  match years with
  | none => 0
  | some y => if y ≤ 0 then 0 else if 15 ≤ y then 1 else (y / 15) ^ (1.5 : ℝ)

/-- Source `v2_normalize_score`: `None` signals "not available", else
`value / 5` (no clamping). -/
noncomputable def v2_normalize_score (value : Option ℝ) : Option ℝ :=
  value.map (fun v => v / 5)

/-- Source `v2_year_multiplier`: `0` for `None` or non-positive, `1` from 15
years on, else `0.3 + 0.7*(years/15)^0.8`. -/
noncomputable def v2_year_multiplier (years : Option ℝ) : ℝ :=
  match years with
  | none => 0
  | some y => if y ≤ 0 then 0 else if 15 ≤ y then 1
              else 0.3 + 0.7 * (y / 15) ^ (0.8 : ℝ)

/-! ### V2 additive scoring (lines 332-437) -/

/-- Source `V2_OPTIONAL_FIELDS` (a Python set; iteration order is immaterial
because real addition is commutative). -/
def V2_OPTIONAL_FIELDS : List String :=
  ["eligibility_score", "validity_score", "claim_breadth",
   "enforcement_clarity", "market_relevance_score",
   "ipr_risk_score", "prosecution_quality_score"]

/-- One optional-field step of the `v2_base_score` loop: add
`w * (value/5)` and the weight `w` when the weight is truthy and the raw
value is present. -/
noncomputable def v2_opt_step (patent : Patent) (weights : Weights)
    (acc : ℝ × ℝ) (field : String) : ℝ × ℝ :=
  let w := weights field
  if w ≠ 0 then
    match patent field with
    | none => acc
    | some v =>
      match v2_normalize_score (some v) with
      | none => acc
      | some nrm => (acc.1 + w * nrm, acc.2 + w)
  else acc

/-- One always-present block of the `v2_base_score` body: when the weight is
truthy (`if weights.get(field):`), add `weight * normalized` to the score and
the weight to the weight sum. -/
noncomputable def v2_always_step (w nrm : ℝ) (acc : ℝ × ℝ) : ℝ × ℝ :=
  if w ≠ 0 then (acc.1 + w * nrm, acc.2 + w) else acc

/-- Source `v2_base_score` (lines 385-424): always-present metrics contribute
when their weight is truthy; optional metrics contribute when their weight is
truthy and the raw value is present; the result is
`score / weight_sum * 100` when `weight_sum > 0`, else `0`. -/
noncomputable def v2_base_score (patent : Patent) (weights : Weights)
    (cap_cc : Option ℝ) : ℝ :=
  let cc0 := pget patent "competitor_citations" 0
  let cc := match cap_cc with
    | none => cc0
    | some c => min cc0 c
  let a1 := v2_always_step (weights "competitor_citations")
    (v2_normalize_sqrt (some cc) 50) (0, 0)
  let a2 := v2_always_step (weights "competitor_count")
    (v2_normalize_linear (some (pget patent "competitor_count" 0)) 10) a1
  let a3 := v2_always_step (weights "forward_citations")
    (v2_normalize_sqrt (some (pget patent "forward_citations" 0)) 500) a2
  let a4 := v2_always_step (weights "years_remaining")
    (v2_normalize_years (some (pget patent "years_remaining" 0))) a3
  let a5 := V2_OPTIONAL_FIELDS.foldl (v2_opt_step patent weights) a4
  if 0 < a5.2 then a5.1 / a5.2 * 100 else 0

/-- Source `V2_PROFILES["aggressive"]`. -/
noncomputable def V2_aggressive : Weights := fun f =>
  if f = "competitor_citations" then 0.25
  else if f = "competitor_count" then 0.10
  else if f = "forward_citations" then 0.05
  else if f = "years_remaining" then 0.05
  else if f = "eligibility_score" then 0.15
  else if f = "validity_score" then 0.10
  else if f = "claim_breadth" then 0.05
  else if f = "enforcement_clarity" then 0.10
  else if f = "market_relevance_score" then 0.10
  else if f = "ipr_risk_score" then 0.025
  else if f = "prosecution_quality_score" then 0.025
  else 0

/-- Source `V2_PROFILES["moderate"]`. -/
noncomputable def V2_moderate : Weights := fun f =>
  if f = "competitor_citations" then 0.15
  else if f = "competitor_count" then 0.05
  else if f = "forward_citations" then 0.10
  else if f = "years_remaining" then 0.05
  else if f = "eligibility_score" then 0.15
  else if f = "validity_score" then 0.15
  else if f = "claim_breadth" then 0.10
  else if f = "enforcement_clarity" then 0.10
  else if f = "market_relevance_score" then 0.10
  else if f = "ipr_risk_score" then 0.025
  else if f = "prosecution_quality_score" then 0.025
  else 0

/-- Source `V2_PROFILES["conservative"]`. -/
noncomputable def V2_conservative : Weights := fun f =>
  if f = "competitor_citations" then 0.10
  else if f = "competitor_count" then 0.05
  else if f = "forward_citations" then 0.05
  else if f = "years_remaining" then 0.05
  else if f = "eligibility_score" then 0.20
  else if f = "validity_score" then 0.20
  else if f = "claim_breadth" then 0.10
  else if f = "enforcement_clarity" then 0.10
  else if f = "market_relevance_score" then 0.05
  else if f = "ipr_risk_score" then 0.05
  else if f = "prosecution_quality_score" then 0.05
  else 0

/-- Result record of `compute_old_v2` (its returned dict has these five keys,
inserted in this order). -/
structure V2Scores where
  aggressive : ℝ
  moderate : ℝ
  conservative : ℝ
  unified : ℝ
  year_multiplier : ℝ

/-- Source `compute_old_v2` (lines 427-437): each profile score is
`base * year_multiplier`; `unified` is their sum divided by 3. -/
noncomputable def compute_old_v2 (patent : Patent) (cap_cc : Option ℝ) :
    V2Scores :=
  let ym := v2_year_multiplier (some (pget patent "years_remaining" 0))
  let a := v2_base_score patent V2_aggressive cap_cc * ym
  let m := v2_base_score patent V2_moderate cap_cc * ym
  let c := v2_base_score patent V2_conservative cap_cc * ym
  { aggressive := a, moderate := m, conservative := c,
    unified := (a + m + c) / 3, year_multiplier := ym }

/-! ### V3 normalization (lines 444-481) -/

/-- One `{"threshold": t, "value": v}` entry of a stepped config. -/
structure Step where
  threshold : ℝ
  value : ℝ

/-- One `{"min": a, "max": b, "baseValue": c, "slope": d}` entry of a
tiered-continuous config. -/
structure Tier where
  min : ℝ
  max : ℝ
  baseValue : ℝ
  slope : ℝ

/-- A V3 normalization config; the `max` fields carry the resolved value of
`config.get("max", default)` at each use site. -/
inductive NormConfig where
  | linear (max : ℝ)
  | sqrt (max : ℝ)
  | log (max : ℝ)
  | stepped (steps : List Step)
  | tiered (tiers : List Tier)
  | score5

/-- The `for step in steps: if v >= step["threshold"]: return step["value"]`
loop of the stepped branch (over the already-sorted list); returns `0` when no
step qualifies. -/
noncomputable def steppedLookup (v : ℝ) : List Step → ℝ
  | [] => 0
  | s :: rest => if s.threshold ≤ v then s.value else steppedLookup v rest

/-- Python's `sorted(steps, key=threshold, reverse=True)`: a stable descending
sort by threshold. -/
noncomputable def sortSteps (steps : List Step) : List Step :=
  steps.mergeSort (fun a b => decide (b.threshold ≤ a.threshold))

/-- The `for tier in tiers` loop of the tiered branch: the first tier with
`min ≤ v < max` yields `baseValue + slope*(v-min)/(max-min)`. -/
noncomputable def tieredLookup (v : ℝ) : List Tier → Option ℝ
  | [] => none
  | t :: rest =>
    if t.min ≤ v ∧ v < t.max then
      some (t.baseValue + (v - t.min) / (t.max - t.min) * t.slope)
    else tieredLookup v rest

/-- Source `v3_normalize` (lines 444-481): substitutes `default` for a missing
value, then dispatches on the config type.  The tiered fall-through consults
the last tier (`tiers[-1]`); an empty tier list (which would raise in Python
and never occurs) yields `0`. -/
noncomputable def v3_normalize (value : Option ℝ) (config : NormConfig)
    (default : ℝ) : ℝ :=
  let v := value.getD default
  match config with
  | .linear mx => min 1 (max 0 (v / mx))
  | .sqrt mx => min 1 (Real.sqrt (max 0 v) / Real.sqrt mx)
  | .log mx => if v ≤ 0 then 0 else min 1 (Real.log (v + 1) / Real.log (mx + 1))
  | .stepped steps => steppedLookup v (sortSteps steps)
  | .tiered tiers =>
    match tieredLookup v tiers with
    | some r => r
    | none =>
      match tiers.getLast? with
      | some last => if last.max ≤ v then last.baseValue + last.slope else 0
      | none => 0
  | .score5 => max 0 (min 1 ((v - 1) / 4))

/-! ### V3 profile catalog (lines 484-775) -/

/-- Source `CITATIONS_AGGRESSIVE`. -/
def CITATIONS_AGGRESSIVE : NormConfig :=
  .tiered
    [⟨0, 1, 0.005, 0.145⟩, ⟨1, 3, 0.15, 0.35⟩, ⟨3, 8, 0.50, 0.25⟩,
     ⟨8, 20, 0.75, 0.18⟩, ⟨20, 100, 0.93, 0.07⟩]

/-- Source `CITATIONS_STANDARD`. -/
def CITATIONS_STANDARD : NormConfig :=
  .tiered
    [⟨0, 1, 0.01, 0.14⟩, ⟨1, 3, 0.15, 0.30⟩, ⟨3, 8, 0.45, 0.25⟩,
     ⟨8, 20, 0.70, 0.20⟩, ⟨20, 100, 0.90, 0.10⟩]

/-- Source `YEARS_LITIGATION`. -/
def YEARS_LITIGATION : NormConfig :=
  .stepped
    [⟨10, 1.00⟩, ⟨7, 0.85⟩, ⟨5, 0.60⟩, ⟨4, 0.40⟩, ⟨3, 0.25⟩, ⟨0, 0.10⟩]

/-- Source `SCORE5`. -/
def SCORE5 : NormConfig := .score5

/-- One `{"field": .., "weight": .., "normalize": .., "default": ..}` metric
entry; `default` holds `metric.get("default", 0)`. -/
structure MetricW where
  field : String
  weight : ℝ
  normalize : NormConfig
  default : ℝ := 0

/-- One factor of a multiplicative profile. -/
structure Factor where
  name : String
  floor : ℝ
  metrics : List MetricW

/-- A multiplicative V3 profile. -/
structure Profile where
  id : String
  factors : List Factor

/-- Source `V3_PROFILES[0]` (`ip-lit-aggressive`). -/
def ip_lit_aggressive : Profile :=
  { id := "ip-lit-aggressive",
    factors :=
      [{ name := "MarketOpportunity", floor := 0.02,
         metrics :=
           [{ field := "competitor_citations", weight := 0.60,
              normalize := CITATIONS_AGGRESSIVE },
            { field := "competitor_count", weight := 0.20,
              normalize := .sqrt 10 },
            { field := "forward_citations", weight := 0.08,
              normalize := .sqrt 400 },
            { field := "market_relevance_score", weight := 0.12,
              normalize := SCORE5, default := 3.2 }] },
       { name := "LegalMerit", floor := 0.15,
         metrics :=
           [{ field := "eligibility_score", weight := 0.35,
              normalize := SCORE5, default := 3.0 },
            { field := "validity_score", weight := 0.35,
              normalize := SCORE5, default := 3.0 },
            { field := "claim_breadth", weight := 0.15,
              normalize := SCORE5, default := 3.0 },
            { field := "prosecution_quality_score", weight := 0.15,
              normalize := SCORE5, default := 3.0 }] },
       { name := "CollectionYield", floor := 0.20,
         metrics :=
           [{ field := "enforcement_clarity", weight := 0.40,
              normalize := SCORE5, default := 3.0 },
            { field := "design_around_difficulty", weight := 0.35,
              normalize := SCORE5, default := 3.0 },
            { field := "ipr_risk_score", weight := 0.25,
              normalize := SCORE5, default := 4.0 }] },
       { name := "Timeline", floor := 0.12,
         metrics :=
           [{ field := "years_remaining", weight := 1.0,
              normalize := YEARS_LITIGATION }] }] }

/-- Source `V3_PROFILES[1]` (`ip-lit-balanced`). -/
def ip_lit_balanced : Profile :=
  { id := "ip-lit-balanced",
    factors :=
      [{ name := "MarketEvidence", floor := 0.012,
         metrics :=
           [{ field := "competitor_citations", weight := 0.75,
              normalize := CITATIONS_AGGRESSIVE },
            { field := "competitor_count", weight := 0.15,
              normalize := .linear 8 },
            { field := "market_relevance_score", weight := 0.10,
              normalize := SCORE5, default := 3.0 }] },
       { name := "LegalStrength", floor := 0.17,
         metrics :=
           [{ field := "eligibility_score", weight := 0.30,
              normalize := SCORE5, default := 3.0 },
            { field := "validity_score", weight := 0.30,
              normalize := SCORE5, default := 3.0 },
            { field := "claim_breadth", weight := 0.20,
              normalize := SCORE5, default := 3.0 },
            { field := "prosecution_quality_score", weight := 0.20,
              normalize := SCORE5, default := 3.0 }] },
       { name := "EnforcementViability", floor := 0.25,
         metrics :=
           [{ field := "enforcement_clarity", weight := 0.35,
              normalize := SCORE5, default := 3.0 },
            { field := "design_around_difficulty", weight := 0.30,
              normalize := SCORE5, default := 3.0 },
            { field := "ipr_risk_score", weight := 0.35,
              normalize := SCORE5, default := 4.0 }] },
       { name := "TimelineValue", floor := 0.15,
         metrics :=
           [{ field := "years_remaining", weight := 1.0,
              normalize := YEARS_LITIGATION }] }] }

/-- Source `V3_PROFILES[2]` (`ip-lit-conservative`). -/
def ip_lit_conservative : Profile :=
  { id := "ip-lit-conservative",
    factors :=
      [{ name := "LegalFoundation", floor := 0.30,
         metrics :=
           [{ field := "eligibility_score", weight := 0.30,
              normalize := SCORE5, default := 2.8 },
            { field := "validity_score", weight := 0.30,
              normalize := SCORE5, default := 2.8 },
            { field := "prosecution_quality_score", weight := 0.25,
              normalize := SCORE5, default := 2.8 },
            { field := "claim_breadth", weight := 0.15,
              normalize := SCORE5, default := 3.0 }] },
       { name := "MarketValidation", floor := 0.05,
         metrics :=
           [{ field := "competitor_citations", weight := 0.65,
              normalize := CITATIONS_STANDARD },
            { field := "competitor_count", weight := 0.20,
              normalize := .linear 8 },
            { field := "forward_citations", weight := 0.15,
              normalize := .sqrt 300 }] },
       { name := "RiskMitigation", floor := 0.35,
         metrics :=
           [{ field := "ipr_risk_score", weight := 0.40,
              normalize := SCORE5, default := 3.5 },
            { field := "enforcement_clarity", weight := 0.35,
              normalize := SCORE5, default := 3.0 },
            { field := "design_around_difficulty", weight := 0.25,
              normalize := SCORE5, default := 3.0 }] },
       { name := "TimelineMargin", floor := 0.20,
         metrics :=
           [{ field := "years_remaining", weight := 1.0,
              normalize := .stepped
                [⟨12, 1.00⟩, ⟨9, 0.85⟩, ⟨7, 0.65⟩, ⟨5, 0.40⟩,
                 ⟨3, 0.20⟩, ⟨0, 0.10⟩] }] }] }

/-- Source `V3_PROFILES[3]` (`licensing`). -/
def licensing : Profile :=
  { id := "licensing",
    factors :=
      [{ name := "LicenseePool", floor := 0.05,
         metrics :=
           [{ field := "competitor_citations", weight := 0.45,
              normalize := CITATIONS_STANDARD },
            { field := "competitor_count", weight := 0.30,
              normalize := .sqrt 10 },
            { field := "forward_citations", weight := 0.25,
              normalize := .sqrt 400 }] },
       { name := "NegotiationLeverage", floor := 0.20,
         metrics :=
           [{ field := "claim_breadth", weight := 0.30,
              normalize := SCORE5, default := 3.0 },
            { field := "design_around_difficulty", weight := 0.30,
              normalize := SCORE5, default := 3.0 },
            { field := "enforcement_clarity", weight := 0.25,
              normalize := SCORE5, default := 3.0 },
            { field := "ipr_risk_score", weight := 0.15,
              normalize := SCORE5, default := 4.0 }] },
       { name := "Credibility", floor := 0.20,
         metrics :=
           [{ field := "eligibility_score", weight := 0.40,
              normalize := SCORE5, default := 3.0 },
            { field := "validity_score", weight := 0.40,
              normalize := SCORE5, default := 3.0 },
            { field := "prosecution_quality_score", weight := 0.20,
              normalize := SCORE5, default := 3.0 }] },
       { name := "TermValue", floor := 0.20,
         metrics :=
           [{ field := "years_remaining", weight := 1.0,
              normalize := .stepped
                [⟨8, 1.00⟩, ⟨5, 0.80⟩, ⟨3, 0.55⟩, ⟨0, 0.25⟩] }] }] }

/-- Source `V3_PROFILES[4]` (`corporate-ma`). -/
def corporate_ma : Profile :=
  { id := "corporate-ma",
    factors :=
      [{ name := "StrategicValue", floor := 0.03,
         metrics :=
           [{ field := "competitor_citations", weight := 0.55,
              normalize := CITATIONS_AGGRESSIVE },
            { field := "forward_citations", weight := 0.25,
              normalize := .sqrt 500 },
            { field := "competitor_count", weight := 0.20,
              normalize := .linear 10 }] },
       { name := "DefensiveStrength", floor := 0.20,
         metrics :=
           [{ field := "claim_breadth", weight := 0.35,
              normalize := SCORE5, default := 3.0 },
            { field := "design_around_difficulty", weight := 0.35,
              normalize := SCORE5, default := 3.0 },
            { field := "market_relevance_score", weight := 0.30,
              normalize := SCORE5, default := 3.0 }] },
       { name := "AssetQuality", floor := 0.25,
         metrics :=
           [{ field := "eligibility_score", weight := 0.30,
              normalize := SCORE5, default := 3.0 },
            { field := "validity_score", weight := 0.30,
              normalize := SCORE5, default := 3.0 },
            { field := "prosecution_quality_score", weight := 0.20,
              normalize := SCORE5, default := 3.0 },
            { field := "ipr_risk_score", weight := 0.20,
              normalize := SCORE5, default := 4.0 }] },
       { name := "LifecycleValue", floor := 0.15,
         metrics :=
           [{ field := "years_remaining", weight := 1.0,
              normalize := .stepped
                [⟨10, 1.00⟩, ⟨7, 0.80⟩, ⟨5, 0.60⟩, ⟨3, 0.35⟩,
                 ⟨0, 0.15⟩] }] }] }

/-- Source `V3_PROFILES[5]` (`executive`). -/
def executive : Profile :=
  { id := "executive",
    factors :=
      [{ name := "MarketPosition", floor := 0.02,
         metrics :=
           [{ field := "competitor_citations", weight := 0.65,
              normalize := CITATIONS_AGGRESSIVE },
            { field := "forward_citations", weight := 0.20,
              normalize := .sqrt 500 },
            { field := "market_relevance_score", weight := 0.15,
              normalize := SCORE5, default := 3.0 }] },
       { name := "PortfolioQuality", floor := 0.22,
         metrics :=
           [{ field := "eligibility_score", weight := 0.25,
              normalize := SCORE5, default := 3.0 },
            { field := "validity_score", weight := 0.25,
              normalize := SCORE5, default := 3.0 },
            { field := "claim_breadth", weight := 0.25,
              normalize := SCORE5, default := 3.0 },
            { field := "prosecution_quality_score", weight := 0.25,
              normalize := SCORE5, default := 3.0 }] },
       { name := "MonetizationPotential", floor := 0.20,
         metrics :=
           [{ field := "competitor_count", weight := 0.35,
              normalize := .sqrt 10 },
            { field := "enforcement_clarity", weight := 0.35,
              normalize := SCORE5, default := 3.0 },
            { field := "design_around_difficulty", weight := 0.30,
              normalize := SCORE5, default := 3.0 }] },
       { name := "AssetLongevity", floor := 0.18,
         metrics :=
           [{ field := "years_remaining", weight := 1.0,
              normalize := .stepped
                [⟨10, 1.00⟩, ⟨7, 0.80⟩, ⟨5, 0.55⟩, ⟨3, 0.30⟩,
                 ⟨0, 0.12⟩] }] }] }

/-- Source `V3_PROFILES`. -/
def V3_PROFILES : List Profile :=
  [ip_lit_aggressive, ip_lit_balanced, ip_lit_conservative, licensing,
   corporate_ma, executive]

/-! ### V3 multiplicative scoring (lines 778-817) -/

/-- The raw value handed to `v3_normalize` for one metric: the competitor
citation cap applies only to a present `competitor_citations` value. -/
noncomputable def metricNormalized (patent : Patent) (cap_cc : Option ℝ)
    (m : MetricW) : ℝ :=
  let raw := patent m.field
  let raw :=
    if m.field = "competitor_citations" then
      match cap_cc, raw with
      | some c, some r => some (min r c)
      | _, _ => raw
    else raw
  v3_normalize raw m.normalize m.default

/-- The inner metric loop of `compute_v3_profile_score`: accumulates
`(weighted_sum, total_weight)`. -/
noncomputable def factorAccum (patent : Patent) (cap_cc : Option ℝ)
    (metrics : List MetricW) : ℝ × ℝ :=
  metrics.foldl
    (fun acc m =>
      (acc.1 + m.weight * metricNormalized patent cap_cc m, acc.2 + m.weight))
    (0, 0)

/-- One factor's score: the weighted average (or `0` when `total_weight ≤ 0`)
floored at the factor's configured minimum. -/
noncomputable def factorScore (patent : Patent) (cap_cc : Option ℝ)
    (factor : Factor) : ℝ :=
  let acc := factorAccum patent cap_cc factor.metrics
  let score := if 0 < acc.2 then acc.1 / acc.2 else 0
  max factor.floor score

/-- Python dict assignment `d[k] = v`: overwrite in place when the key exists,
else append. -/
def dictInsert (k : String) (v : ℝ) : List (String × ℝ) → List (String × ℝ)
  | [] => [(k, v)]
  | (k', v') :: rest =>
    if k' = k then (k, v) :: rest else (k', v') :: dictInsert k v rest

/-- Python dict lookup `d.get(k)`. -/
def dictGet (k : String) : List (String × ℝ) → Option ℝ
  | [] => none
  | (k', v') :: rest => if k' = k then some v' else dictGet k rest

/-- Source `compute_v3_profile_score` (lines 778-806): fills the
`factor_scores` dict factor by factor, then multiplies all its values and
scales by 100; returns `(final, factor_scores)`. -/
noncomputable def compute_v3_profile_score (patent : Patent)
    (profile : Profile) (cap_cc : Option ℝ) : ℝ × List (String × ℝ) :=
  let fs := profile.factors.foldl
    (fun d factor => dictInsert factor.name (factorScore patent cap_cc factor) d)
    []
  let final := ((fs.map Prod.snd).foldl (fun x s => x * s) 1) * 100
  (final, fs)

/-! ### New-engine executive score (lines 824-886) -/

/-- The weight table of `compute_new_executive`. -/
noncomputable def newExecWeights : Weights := fun f =>
  if f = "competitor_citations" then 0.25
  else if f = "forward_citations" then 0.13
  else if f = "years_remaining" then 0.17
  else if f = "competitor_count" then 0.08
  else if f = "eligibility_score" then 0.05
  else if f = "validity_score" then 0.05
  else if f = "claim_breadth" then 0.04
  else if f = "enforcement_clarity" then 0.04
  else if f = "design_around_difficulty" then 0.04
  else if f = "market_relevance_score" then 0.05
  else if f = "ipr_risk_score" then 0.05
  else if f = "prosecution_quality_score" then 0.05
  else 0

/-- The five LLM fields scanned by `compute_new_executive`, in loop order. -/
def NEW_EXEC_LLM_FIELDS : List String :=
  ["eligibility_score", "validity_score", "claim_breadth",
   "enforcement_clarity", "design_around_difficulty"]

/-- Python `round(x, 2)` modelled as rounding `100*x` to an integer.  (CPython
breaks exact halves towards the even last digit over binary floats; this model
rounds halves up.  No claim below depends on tie behaviour: equal arguments
round equally.) -/
noncomputable def round2 (x : ℝ) : ℝ := (round (x * 100) : ℤ) / 100

/-- One iteration of the LLM sparse-metric loop of `compute_new_executive`:
the field's value (`llm.get(field, 0)`) is added to the metrics dict and its
weight to `available_weight` exactly when it lies in `[1, 5]`. -/
noncomputable def llmStep (l : Patent) (acc : List (String × ℝ) × ℝ)
    (f : String) : List (String × ℝ) × ℝ :=
  let v := pget l f 0
  if 1 ≤ v ∧ v ≤ 5 then
    (acc.1 ++ [(f, max 0 ((v - 1) / 4))], acc.2 + newExecWeights f)
  else acc

/-- The `if llm:` block of `compute_new_executive`: scan the five LLM fields.
(An empty dict is falsy in Python; that case coincides with running the loop,
because every field then reads as `0` and fails the `1 ≤ v` test.) -/
noncomputable def newExecLlm (llm : Option Patent)
    (acc : List (String × ℝ) × ℝ) : List (String × ℝ) × ℝ :=
  match llm with
  | none => acc
  | some l => NEW_EXEC_LLM_FIELDS.foldl (llmStep l) acc

/-- One `if x is not None and isinstance(...) and 1 <= x <= 5` block of
`compute_new_executive` for an API-derived sparse metric. -/
noncomputable def sparseAdd (f : String) (vo : Option ℝ)
    (acc : List (String × ℝ) × ℝ) : List (String × ℝ) × ℝ :=
  match vo with
  | some v =>
    if 1 ≤ v ∧ v ≤ 5 then
      (acc.1 ++ [(f, max 0 ((v - 1) / 4))], acc.2 + newExecWeights f)
    else acc
  | none => acc

/-- The tail of `compute_new_executive`: renormalize by the available weight,
apply the year multiplier, scale by 100, round to two decimals. -/
noncomputable def newExecFinish (years : ℝ)
    (s : List (String × ℝ) × ℝ) : ℝ :=
  let renorm := if 0 < s.2 then 1 / s.2 else 1
  let base := ((s.1.map (fun kv => kv.2 * newExecWeights kv.1)).sum) * renorm
  let years_factor := min 1 (max 0 years / 15)
  let year_mult := 0.3 + 0.7 * years_factor ^ (0.8 : ℝ)
  round2 (base * year_mult * 100)

/-- Source `compute_new_executive` (lines 824-886).  `classification` may be
the Python `None`.  A sparse metric enters the metrics dict and its weight
enters `available_weight` only when its value lies in `[1, 5]`. -/
noncomputable def compute_new_executive (candidate : Patent)
    (classification : Option Patent) (llm : Option Patent)
    (cap_cc ipr_score prosecution_score market_relevance : Option ℝ) : ℝ :=
  let cc0 := match classification with
    | some cl => pget cl "competitor_citations" 0
    | none => 0
  let cc := match cap_cc with
    | some cap => min cc0 cap
    | none => cc0
  let fc := pget candidate "forward_citations" 0
  let years := pget candidate "remaining_years" 0
  let count := match classification with
    | some cl => pget cl "competitor_count" 0
    | none => 0
  let cc_norm := min 1 (cc / 20)
  let fc_norm := min 1 (Real.sqrt fc / 30)
  let years_norm := min 1 (years / 15)
  let count_norm := min 1 (count / 5)
  let m0 : List (String × ℝ) :=
    [("competitor_citations", cc_norm), ("years_remaining", years_norm),
     ("forward_citations", fc_norm), ("competitor_count", count_norm)]
  let aw0 := newExecWeights "competitor_citations" +
    newExecWeights "years_remaining" + newExecWeights "forward_citations" +
    newExecWeights "competitor_count"
  newExecFinish years
    (sparseAdd "prosecution_quality_score" prosecution_score
      (sparseAdd "ipr_risk_score" ipr_score
        (sparseAdd "market_relevance_score" market_relevance
          (newExecLlm llm (m0, aw0)))))

/-! ### Analysis helpers (lines 893-906) -/

/-- Source `spearman`: `0` for fewer than two entries, else
`1 - 6*Σd²/(n*(n²-1))` over the zipped rank vectors.  Rank positions are
integers, so the arithmetic is exact over `ℚ`. -/
def spearman (ranks_a ranks_b : List ℚ) : ℚ :=
  let n := ranks_a.length
  if n < 2 then 0
  else
    let d_sq := ((ranks_a.zip ranks_b).map (fun p => (p.1 - p.2) ^ 2)).sum
    1 - (6 * d_sq) / ((n : ℚ) * ((n : ℚ) ^ 2 - 1))

/-- Source `overlap_at_cutoff`: the size of the intersection of the two top-k
id sets, paired with the cutoff. -/
def overlap_at_cutoff {α : Type} [DecidableEq α] (list_a list_b : List α)
    (cutoff : ℕ) : ℕ × ℕ :=
  let set_a := (list_a.take cutoff).toFinset
  let set_b := (list_b.take cutoff).toFinset
  ((set_a ∩ set_b).card, cutoff)

/-! ### Spec-side definitions and concrete inputs used by the theorems -/

/-- The patent record with every metric absent. -/
def emptyPatent : Patent := fun _ => none

/-- The canonical rank-position vector `[1, 2, ..., n]`. -/
def rankVec (n : ℕ) : List ℚ :=
  (List.range n).map (fun i : ℕ => ((i : ℚ) + 1))

/-- The spec's description of the additive evaluator: the four always-present
metrics contribute `weight * normalized` unconditionally, an optional metric
contributes only when its raw value is present, the denominator sums exactly
the contributed weights, and the result is `100 * Σ contribution / Σ weight`,
or `0` when the contributed weight sum is not positive. -/
noncomputable def evaluate_additive_spec (patent : Patent) (weights : Weights)
    (cap_cc : Option ℝ) : ℝ :=
  let cc0 := pget patent "competitor_citations" 0
  let cc := match cap_cc with
    | none => cc0
    | some c => min cc0 c
  let contribs : List (ℝ × ℝ) :=
    [(weights "competitor_citations", v2_normalize_sqrt (some cc) 50),
     (weights "competitor_count",
        v2_normalize_linear (some (pget patent "competitor_count" 0)) 10),
     (weights "forward_citations",
        v2_normalize_sqrt (some (pget patent "forward_citations" 0)) 500),
     (weights "years_remaining",
        v2_normalize_years (some (pget patent "years_remaining" 0)))] ++
    V2_OPTIONAL_FIELDS.filterMap (fun f =>
      match patent f with
      | some v => some (weights f, v / 5)
      | none => none)
  let S := (contribs.map (fun p => p.1 * p.2)).sum
  let W := (contribs.map Prod.fst).sum
  if 0 < W then 100 * S / W else 0

/-- The claim's description of one factor's score: the weighted average of the
metrics' normalized values (the configured default substituted when the raw
value is absent), floored at the factor's configured minimum. -/
noncomputable def factor_spec_score (patent : Patent) (cap_cc : Option ℝ)
    (fa : Factor) : ℝ :=
  max fa.floor
    (((fa.metrics.map (fun m => m.weight * metricNormalized patent cap_cc m)).sum) /
      ((fa.metrics.map MetricW.weight).sum))

/-- Value-level normalization: `v3_normalize` on a present value (the default
argument is then irrelevant). -/
noncomputable def normVal (c : NormConfig) (v : ℝ) : ℝ := v3_normalize (some v) c 0

/-- A well-behaved metric entry: non-negative weight and a normalization that
is monotone non-decreasing and non-negative on present values. -/
def MetricOK (m : MetricW) : Prop :=
  0 ≤ m.weight ∧ Monotone (normVal m.normalize) ∧
    ∀ v, 0 ≤ normVal m.normalize v

/-- A profile all of whose metric entries are well-behaved. -/
def ProfileOK (prof : Profile) : Prop :=
  ∀ fa ∈ prof.factors, ∀ m ∈ fa.metrics, MetricOK m

/-- A patent whose only present metric is `years_remaining = 0`. -/
def onlyYearsZero : Patent := fun f =>
  if f = "years_remaining" then some (0 : ℝ) else none

/-- A patent whose only present metric is `years_remaining = 10`. -/
def yearsTen : Patent := fun f =>
  if f = "years_remaining" then some (10 : ℝ) else none

/-- A patent whose only present metric is `years_remaining = 4`. -/
def yearsFour : Patent := fun f =>
  if f = "years_remaining" then some (4 : ℝ) else none

/-- A small synthetic two-factor multiplicative profile (the scoring engine is
testable against synthetic profiles independent of the catalog). -/
noncomputable def synthProfile : Profile :=
  { id := "synthetic",
    factors :=
      [{ name := "A", floor := 0.5,
         metrics := [{ field := "x", weight := 1.0, normalize := SCORE5,
                       default := 3.0 }] },
       { name := "B", floor := 0.1,
         metrics := [{ field := "y", weight := 1.0,
                       normalize := .linear 10 }] }] }

/-- The optional-field contributions of `v2_base_score`, in spec form. -/
noncomputable def v2_opt_list (patent : Patent) (weights : Weights)
    (l : List String) : List (ℝ × ℝ) :=
  l.filterMap (fun f =>
    match patent f with
    | some v => some (weights f, v / 5)
    | none => none)

/-! ## Helper lemmas -/

theorem zip_self {α : Type} (l : List α) :
    l.zip l = l.map (fun x => (x, x)) := by
  induction l with
  | nil => rfl
  | cons a t ih => simp [List.zip_cons_cons, ih]

theorem sum_sq_diff_self (l : List ℚ) :
    ((l.zip l).map (fun p => (p.1 - p.2) ^ 2)).sum = 0 := by
  rw [zip_self]
  induction l with
  | nil => rfl
  | cons a t ih => simpa using ih

theorem list_range_map_sum (f : ℕ → ℚ) (n : ℕ) :
    ((List.range n).map f).sum = ∑ i ∈ Finset.range n, f i := by
  induction n with
  | zero => rfl
  | succ n ih => rw [List.range_succ, Finset.sum_range_succ, ← ih]; simp

theorem sum_range_cast (n : ℕ) :
    ∑ i ∈ Finset.range n, (i : ℚ) = n * (n - 1) / 2 := by
  induction n with
  | zero => simp
  | succ n ih => rw [Finset.sum_range_succ, ih]; push_cast; ring

theorem sum_range_cast_sq (n : ℕ) :
    ∑ i ∈ Finset.range n, (i : ℚ) ^ 2 = n * (n - 1) * (2 * n - 1) / 6 := by
  induction n with
  | zero => simp
  | succ n ih => rw [Finset.sum_range_succ, ih]; push_cast; ring

theorem rankVec_reverse (n : ℕ) :
    (rankVec n).reverse = (List.range n).map (fun i : ℕ => ((n : ℚ) - (i : ℚ))) := by
  induction n with
  | zero => rfl
  | succ n ih =>
    have h1 : rankVec (n + 1) = rankVec n ++ [((n : ℚ) + 1)] := by
      simp [rankVec, List.range_succ]
    rw [h1, List.reverse_append, List.range_succ_eq_map, List.map_cons,
      List.map_map, ih]
    simp only [List.reverse_cons, List.reverse_nil, List.nil_append,
      List.singleton_append, Nat.cast_zero]
    congr 1
    · push_cast; ring
    · apply List.map_congr_left
      intro i _
      simp only [Function.comp_apply]
      push_cast; ring

/-! ## C9 -/

/-- C9: `overlap_at_cutoff(A, A, k)` returns overlap count `k` for every
duplicate-free ranked id list `A` and every cutoff `k ≤ |A|`, and for every
pair of lists the overlap count never exceeds `k`. -/
theorem c9_overlap_at_cutoff :
    (∀ (A : List String) (k : ℕ), A.Nodup → k ≤ A.length →
      (overlap_at_cutoff A A k).1 = k) ∧
    (∀ (A B : List String) (k : ℕ), (overlap_at_cutoff A B k).1 ≤ k) := by
  constructor
  · intro A k hnd hk
    simp only [overlap_at_cutoff, Finset.inter_self]
    rw [List.toFinset_card_of_nodup (hnd.sublist (List.take_sublist k A))]
    simp [List.length_take]
    omega
  · intro A B k
    calc ((A.take k).toFinset ∩ (B.take k).toFinset).card
        ≤ (A.take k).toFinset.card :=
          Finset.card_le_card Finset.inter_subset_left
      _ ≤ (A.take k).length := List.toFinset_card_le _
      _ ≤ k := by simp [List.length_take]

theorem c9_overlap_at_cutoff_witness :
    (["p1", "p2", "p3"] : List String).Nodup ∧
    2 ≤ (["p1", "p2", "p3"] : List String).length ∧
    (overlap_at_cutoff ["p1", "p2", "p3"] ["p1", "p2", "p3"] 2).1 = 2 :=
  ⟨by decide, by decide,
   c9_overlap_at_cutoff.1 ["p1", "p2", "p3"] 2 (by decide) (by decide)⟩

/-! ## C8 -/

/-- C8 counterexample: the claim fails as stated.  `spearman` of a
single-entry vector against itself is `0`, not `1` (the `n < 2` guard), and
`spearman` of the rank vector `[1, 3, 2]` against its exact reversal
`[2, 3, 1]` is `1/2`, not `-1`. -/
theorem c8_spearman_counterexample :
    spearman [1] [1] = 0 ∧ (0 : ℚ) ≠ 1 ∧
    ([2, 3, 1] : List ℚ) = List.reverse [1, 3, 2] ∧
    spearman [1, 3, 2] [2, 3, 1] = 1 / 2 ∧ (1 / 2 : ℚ) ≠ -1 := by
  refine ⟨by norm_num [spearman], by norm_num, by norm_num, ?_, by norm_num⟩
  norm_num [spearman, List.zip]

/-- C8 amended: for rank vectors of length at least 2, `spearman(R, R) = 1`;
and for `n ≥ 2` the canonical rank vector `[1..n]` against its exact reversal
yields exactly `-1`.  (For `n < 2` the code returns `0`, and for a
non-monotone rank vector the list reversal does not give `-1`.) -/
theorem c8_spearman_amended :
    (∀ R : List ℚ, 2 ≤ R.length → spearman R R = 1) ∧
    (∀ n : ℕ, 2 ≤ n → spearman (rankVec n) (rankVec n).reverse = -1) := by
  constructor
  · intro R hR
    rw [spearman]
    simp only [sum_sq_diff_self]
    rw [if_neg (by omega)]
    norm_num
  · intro n hn
    have hlen : (rankVec n).length = n := by simp [rankVec]
    have hcast : (2 : ℚ) ≤ (n : ℚ) := by exact_mod_cast hn
    have hX : (n : ℚ) * ((n : ℚ) ^ 2 - 1) ≠ 0 := by
      apply mul_ne_zero
      · positivity
      · nlinarith
    have hd : (((rankVec n).zip (rankVec n).reverse).map
        (fun p => (p.1 - p.2) ^ 2)).sum = (n : ℚ) * ((n : ℚ) ^ 2 - 1) / 3 := by
      rw [rankVec_reverse, rankVec, List.zip_map, zip_self, List.map_map,
        List.map_map, list_range_map_sum]
      simp only [Function.comp_apply, Prod.map_apply]
      have expand : ∀ i ∈ Finset.range n,
          ((((i : ℚ) + 1) - ((n : ℚ) - (i : ℚ))) ^ 2) =
          4 * (i : ℚ) ^ 2 + (4 * (1 - (n : ℚ))) * (i : ℚ) + (1 - (n : ℚ)) ^ 2 := by
        intro i _
        ring
      rw [Finset.sum_congr rfl expand]
      rw [Finset.sum_add_distrib, Finset.sum_add_distrib, ← Finset.mul_sum,
        ← Finset.mul_sum, sum_range_cast, sum_range_cast_sq, Finset.sum_const,
        Finset.card_range]
      ring
    rw [spearman]
    simp only [hlen, hd]
    rw [if_neg (by omega)]
    rw [show (6 : ℚ) * ((n : ℚ) * ((n : ℚ) ^ 2 - 1) / 3) =
      2 * ((n : ℚ) * ((n : ℚ) ^ 2 - 1)) by ring]
    rw [mul_div_assoc, div_self hX]
    norm_num

/-! ## Normalization bound helpers -/

theorem v3n_linear_mem (v : Option ℝ) (mx d : ℝ) :
    0 ≤ v3_normalize v (.linear mx) d ∧ v3_normalize v (.linear mx) d ≤ 1 := by
  simp only [v3_normalize]
  exact ⟨le_min (by norm_num) (le_max_left _ _), min_le_left _ _⟩

theorem v3n_linear_clamp {v : ℝ} (mx d : ℝ) (hmx : 0 < mx) (hv : v ≤ 0) :
    v3_normalize (some v) (.linear mx) d = 0 := by
  simp only [v3_normalize, Option.getD_some]
  rw [max_eq_left (div_nonpos_of_nonpos_of_nonneg hv (le_of_lt hmx))]
  exact min_eq_right (by norm_num)

theorem v3n_sqrt_mem (v : Option ℝ) (mx d : ℝ) :
    0 ≤ v3_normalize v (.sqrt mx) d ∧ v3_normalize v (.sqrt mx) d ≤ 1 := by
  simp only [v3_normalize]
  exact ⟨le_min (by norm_num)
    (div_nonneg (Real.sqrt_nonneg _) (Real.sqrt_nonneg _)), min_le_left _ _⟩

theorem v3n_log_mem (v : Option ℝ) (mx d : ℝ) (hmx : 0 ≤ mx) :
    0 ≤ v3_normalize v (.log mx) d ∧ v3_normalize v (.log mx) d ≤ 1 := by
  simp only [v3_normalize]
  split
  · norm_num
  · rename_i hw
    push_neg at hw
    refine ⟨le_min (by norm_num) (div_nonneg ?_ ?_), min_le_left _ _⟩
    · exact Real.log_nonneg (by linarith)
    · exact Real.log_nonneg (by linarith)

theorem v3n_score5_mem (v : Option ℝ) (d : ℝ) :
    0 ≤ v3_normalize v .score5 d ∧ v3_normalize v .score5 d ≤ 1 := by
  simp only [v3_normalize]
  exact ⟨le_max_left _ _, max_le (by norm_num) (min_le_left _ _)⟩

theorem steppedLookup_nonneg {l : List Step} (h : ∀ s ∈ l, 0 ≤ s.value)
    (v : ℝ) : 0 ≤ steppedLookup v l := by
  induction l with
  | nil => simp [steppedLookup]
  | cons s t ih =>
    simp only [steppedLookup]
    split
    · exact h s (List.mem_cons_self s t)
    · exact ih (fun x hx => h x (List.mem_cons_of_mem s hx))

theorem steppedLookup_le {l : List Step} {B : ℝ} (h : ∀ s ∈ l, s.value ≤ B)
    (hB : 0 ≤ B) (v : ℝ) : steppedLookup v l ≤ B := by
  induction l with
  | nil => simpa [steppedLookup] using hB
  | cons s t ih =>
    simp only [steppedLookup]
    split
    · exact h s (List.mem_cons_self s t)
    · exact ih (fun x hx => h x (List.mem_cons_of_mem s hx))

theorem sortSteps_mem {l : List Step} {s : Step} :
    s ∈ sortSteps l ↔ s ∈ l :=
  (List.mergeSort_perm l _).mem_iff

theorem v3n_stepped_mem (steps : List Step) (v : Option ℝ) (d : ℝ)
    (h : ∀ s ∈ steps, 0 ≤ s.value ∧ s.value ≤ 1) :
    0 ≤ v3_normalize v (.stepped steps) d ∧
    v3_normalize v (.stepped steps) d ≤ 1 := by
  simp only [v3_normalize]
  exact ⟨steppedLookup_nonneg (fun s hs => (h s (sortSteps_mem.mp hs)).1) _,
         steppedLookup_le (fun s hs => (h s (sortSteps_mem.mp hs)).2)
           (by norm_num) _⟩

theorem tieredLookup_bounds {l : List Tier}
    (h : ∀ t ∈ l, 0 ≤ t.baseValue ∧ 0 ≤ t.slope ∧
      t.baseValue + t.slope ≤ 1 ∧ t.min < t.max)
    {v r : ℝ} (hr : tieredLookup v l = some r) : 0 ≤ r ∧ r ≤ 1 := by
  induction l with
  | nil => simp [tieredLookup] at hr
  | cons t rest ih =>
    simp only [tieredLookup] at hr
    split at hr
    · rename_i hc
      obtain ⟨hb, hs, hbs, hmm⟩ := h t (List.mem_cons_self t rest)
      injection hr with hr
      have hp0 : 0 ≤ (v - t.min) / (t.max - t.min) :=
        div_nonneg (by linarith [hc.1]) (by linarith)
      have hp1 : (v - t.min) / (t.max - t.min) ≤ 1 := by
        rw [div_le_one (by linarith)]
        linarith [hc.2]
      have hps : 0 ≤ (v - t.min) / (t.max - t.min) * t.slope :=
        mul_nonneg hp0 hs
      have hps1 : (v - t.min) / (t.max - t.min) * t.slope ≤ t.slope := by
        calc (v - t.min) / (t.max - t.min) * t.slope ≤ 1 * t.slope :=
              mul_le_mul_of_nonneg_right hp1 hs
          _ = t.slope := one_mul _
      rw [← hr]
      exact ⟨by linarith, by linarith⟩
    · exact ih (fun x hx => h x (List.mem_cons_of_mem t hx)) hr

theorem getLast?_mem_list {l : List Tier} {t : Tier}
    (h : l.getLast? = some t) : t ∈ l := by
  obtain ⟨hne, heq⟩ := List.mem_getLast?_eq_getLast (Option.mem_def.mpr h)
  rw [heq]
  exact List.getLast_mem hne

theorem v3n_tiered_mem (tiers : List Tier) (v : Option ℝ) (d : ℝ)
    (h : ∀ t ∈ tiers, 0 ≤ t.baseValue ∧ 0 ≤ t.slope ∧
      t.baseValue + t.slope ≤ 1 ∧ t.min < t.max) :
    0 ≤ v3_normalize v (.tiered tiers) d ∧
    v3_normalize v (.tiered tiers) d ≤ 1 := by
  simp only [v3_normalize]
  rcases hl : tieredLookup (v.getD d) tiers with _ | r
  · rcases hlast : tiers.getLast? with _ | last
    · simp
    · obtain ⟨hb, hs, hbs, _⟩ := h last (getLast?_mem_list hlast)
      simp only
      split
      · exact ⟨by linarith, hbs⟩
      · norm_num
  · simp only
    exact tieredLookup_bounds h hl

theorem v2n_sqrt_mem (v : Option ℝ) (mx : ℝ) :
    0 ≤ v2_normalize_sqrt v mx ∧ v2_normalize_sqrt v mx ≤ 1 := by
  rcases v with _ | w
  · simp [v2_normalize_sqrt]
  · simp only [v2_normalize_sqrt]
    split
    · norm_num
    · exact ⟨le_min (by norm_num)
        (div_nonneg (Real.sqrt_nonneg _) (Real.sqrt_nonneg _)), min_le_left _ _⟩

theorem v2n_years_mem (y : Option ℝ) :
    0 ≤ v2_normalize_years y ∧ v2_normalize_years y ≤ 1 := by
  rcases y with _ | w
  · simp [v2_normalize_years]
  · simp only [v2_normalize_years]
    split
    · norm_num
    · split
      · norm_num
      · rename_i h0 h15
        push_neg at h0 h15
        constructor
        · exact Real.rpow_nonneg (by positivity) _
        · exact Real.rpow_le_one (by positivity)
            ((div_le_one (by norm_num)).mpr (le_of_lt h15)) (by norm_num)

/-! ## C1 -/

/-- C1 counterexample: `v2_normalize_linear` does not clamp negative inputs to
0: at input `-5` with max 10 it returns `-1/2`, outside `[0, 1]`; and
`v2_normalize_score` does not clamp above: at input `7` it returns `7/5`. -/
theorem c1_normalize_counterexample :
    v2_normalize_linear (some (-5)) 10 = -(1 / 2) ∧
    ¬ (0 : ℝ) ≤ v2_normalize_linear (some (-5)) 10 ∧
    v2_normalize_score (some 7) = some (7 / 5) ∧ ¬ (7 / 5 : ℝ) ≤ 1 := by
  have h : v2_normalize_linear (some (-5)) 10 = -(1 / 2) := by
    simp only [v2_normalize_linear]
    rw [min_eq_right (by norm_num)]
    norm_num
  exact ⟨h, by rw [h]; norm_num, by simp [v2_normalize_score], by norm_num⟩

/-- C1 amended: every `v3_normalize` variant stays in `[0, 1]` (for linear and
sqrt unconditionally, for log when the configured max is non-negative, for
stepped when the step values lie in `[0, 1]`, for tiered_continuous when each
tier has `0 ≤ baseValue`, `0 ≤ slope`, `baseValue + slope ≤ 1` and
`min < max`, and for score5 unconditionally), and V3 linear clamps
non-positive inputs to 0; `v2_normalize_sqrt` and `v2_normalize_years` always
return values in `[0, 1]`; but `v2_normalize_linear` clamps only from above —
it returns `min(1, value/max)`, which is negative for a negative input and a
positive max — and `v2_normalize_score` returns the unclamped `value/5`
(inside `[0, 1]` only for inputs in `[0, 5]`). -/
theorem c1_normalize_bounds_amended :
    (∀ (v : Option ℝ) (mx d : ℝ),
      0 ≤ v3_normalize v (.linear mx) d ∧ v3_normalize v (.linear mx) d ≤ 1) ∧
    (∀ (v mx d : ℝ), 0 < mx → v ≤ 0 →
      v3_normalize (some v) (.linear mx) d = 0) ∧
    (∀ (v : Option ℝ) (mx d : ℝ),
      0 ≤ v3_normalize v (.sqrt mx) d ∧ v3_normalize v (.sqrt mx) d ≤ 1) ∧
    (∀ (v : Option ℝ) (mx d : ℝ), 0 ≤ mx →
      0 ≤ v3_normalize v (.log mx) d ∧ v3_normalize v (.log mx) d ≤ 1) ∧
    (∀ (steps : List Step) (v : Option ℝ) (d : ℝ),
      (∀ s ∈ steps, 0 ≤ s.value ∧ s.value ≤ 1) →
      0 ≤ v3_normalize v (.stepped steps) d ∧
        v3_normalize v (.stepped steps) d ≤ 1) ∧
    (∀ (tiers : List Tier) (v : Option ℝ) (d : ℝ),
      (∀ t ∈ tiers, 0 ≤ t.baseValue ∧ 0 ≤ t.slope ∧
        t.baseValue + t.slope ≤ 1 ∧ t.min < t.max) →
      0 ≤ v3_normalize v (.tiered tiers) d ∧
        v3_normalize v (.tiered tiers) d ≤ 1) ∧
    (∀ (v : Option ℝ) (d : ℝ),
      0 ≤ v3_normalize v .score5 d ∧ v3_normalize v .score5 d ≤ 1) ∧
    (∀ (v : Option ℝ) (mx : ℝ),
      0 ≤ v2_normalize_sqrt v mx ∧ v2_normalize_sqrt v mx ≤ 1) ∧
    (∀ y : Option ℝ, 0 ≤ v2_normalize_years y ∧ v2_normalize_years y ≤ 1) ∧
    (∀ v mx : ℝ, v2_normalize_linear (some v) mx = min 1 (v / mx)) ∧
    (∀ v mx : ℝ, 0 < mx → 0 ≤ v →
      0 ≤ v2_normalize_linear (some v) mx ∧ v2_normalize_linear (some v) mx ≤ 1) ∧
    (∀ v : ℝ, v2_normalize_score (some v) = some (v / 5)) :=
  ⟨v3n_linear_mem, fun v mx d hmx hv => v3n_linear_clamp mx d hmx hv,
   v3n_sqrt_mem, fun v mx d hmx => v3n_log_mem v mx d hmx,
   fun steps v d h => v3n_stepped_mem steps v d h,
   fun tiers v d h => v3n_tiered_mem tiers v d h,
   v3n_score5_mem, v2n_sqrt_mem, v2n_years_mem,
   fun _ _ => rfl,
   fun v mx hmx hv =>
     ⟨le_min (by norm_num) (div_nonneg hv (le_of_lt hmx)), min_le_left _ _⟩,
   fun _ => rfl⟩

theorem c1_normalize_bounds_amended_witness :
    ((0 : ℝ) < 10 ∧ (-3 : ℝ) ≤ 0 ∧
      v3_normalize (some (-3)) (.linear 10) 0 = 0) ∧
    ((0 : ℝ) ≤ 100 ∧
      0 ≤ v3_normalize (some 42) (.log 100) 0 ∧
      v3_normalize (some 42) (.log 100) 0 ≤ 1) :=
  ⟨⟨by norm_num, by norm_num,
    c1_normalize_bounds_amended.2.1 (-3) 10 0 (by norm_num) (by norm_num)⟩,
   ⟨by norm_num,
    c1_normalize_bounds_amended.2.2.2.1 (some 42) 100 0 (by norm_num)⟩⟩

/-! ## Year multiplier helpers -/

theorem rpow_unit {y : ℝ} (h0 : 0 < y) (h15 : y < 15) :
    0 ≤ (y / 15) ^ (0.8 : ℝ) ∧ (y / 15) ^ (0.8 : ℝ) ≤ 1 :=
  ⟨Real.rpow_nonneg (by positivity) _,
   Real.rpow_le_one (by positivity)
     ((div_le_one (by norm_num)).mpr (le_of_lt h15)) (by norm_num)⟩

theorem v2ym_zero {y : ℝ} (h : y ≤ 0) : v2_year_multiplier (some y) = 0 := by
  simp [v2_year_multiplier, h]

theorem v2ym_one {y : ℝ} (h : 15 ≤ y) : v2_year_multiplier (some y) = 1 := by
  have h0 : ¬ y ≤ 0 := by push_neg; linarith
  simp [v2_year_multiplier, h0, h]

theorem v2ym_interior {y : ℝ} (h0 : 0 < y) (h15 : ¬ 15 ≤ y) :
    v2_year_multiplier (some y) = 0.3 + 0.7 * (y / 15) ^ (0.8 : ℝ) := by
  simp [v2_year_multiplier, not_le.mpr h0, h15]

theorem v2ym_nonneg (y : ℝ) : 0 ≤ v2_year_multiplier (some y) := by
  by_cases h0 : y ≤ 0
  · rw [v2ym_zero h0]
  · by_cases h15 : 15 ≤ y
    · rw [v2ym_one h15]; norm_num
    · rw [v2ym_interior (lt_of_not_le h0) h15]
      have := (rpow_unit (lt_of_not_le h0) (lt_of_not_le h15)).1
      linarith

theorem v2ym_le_one (y : ℝ) : v2_year_multiplier (some y) ≤ 1 := by
  by_cases h0 : y ≤ 0
  · rw [v2ym_zero h0]; norm_num
  · by_cases h15 : 15 ≤ y
    · rw [v2ym_one h15]
    · rw [v2ym_interior (lt_of_not_le h0) h15]
      have := (rpow_unit (lt_of_not_le h0) (lt_of_not_le h15)).2
      linarith

/-! ## C5 -/

/-- C5 counterexample: the year multiplier is not bounded below by 0.3 on all
inputs: at 0 remaining years the code returns `0`. -/
theorem c5_year_multiplier_counterexample :
    v2_year_multiplier (some 0) = 0 ∧ ¬ (0.3 : ℝ) ≤ v2_year_multiplier (some 0) := by
  have h : v2_year_multiplier (some 0) = 0 := v2ym_zero le_rfl
  exact ⟨h, by rw [h]; norm_num⟩

/-- C5 amended: the year multiplier lies in [0.3, 1.0] for every positive
remaining-years input (it is `0`, not 0.3, for inputs at or below 0 and for a
missing input); it is monotone non-decreasing on all inputs; and it equals 1.0
from 15 years on. -/
theorem c5_year_multiplier_amended :
    (∀ y : ℝ, 0 < y →
      0.3 ≤ v2_year_multiplier (some y) ∧ v2_year_multiplier (some y) ≤ 1) ∧
    (∀ y : ℝ, y ≤ 0 → v2_year_multiplier (some y) = 0) ∧
    v2_year_multiplier none = 0 ∧
    (∀ y1 y2 : ℝ, y1 ≤ y2 →
      v2_year_multiplier (some y1) ≤ v2_year_multiplier (some y2)) ∧
    (∀ y : ℝ, 15 ≤ y → v2_year_multiplier (some y) = 1) := by
  refine ⟨?_, fun y h => v2ym_zero h, rfl, ?_, fun y h => v2ym_one h⟩
  · intro y h0
    refine ⟨?_, v2ym_le_one y⟩
    by_cases h15 : 15 ≤ y
    · rw [v2ym_one h15]; norm_num
    · rw [v2ym_interior h0 h15]
      have := (rpow_unit h0 (lt_of_not_le h15)).1
      linarith
  · intro y1 y2 h
    by_cases h1 : y1 ≤ 0
    · rw [v2ym_zero h1]
      exact v2ym_nonneg y2
    · have h01 : 0 < y1 := lt_of_not_le h1
      have h02 : 0 < y2 := lt_of_lt_of_le h01 h
      by_cases h15a : 15 ≤ y1
      · rw [v2ym_one h15a, v2ym_one (le_trans h15a h)]
      · by_cases h15b : 15 ≤ y2
        · rw [v2ym_one h15b]
          exact v2ym_le_one y1
        · rw [v2ym_interior h01 h15a, v2ym_interior h02 h15b]
          have hr : (y1 / 15) ^ (0.8 : ℝ) ≤ (y2 / 15) ^ (0.8 : ℝ) :=
            Real.rpow_le_rpow (by positivity) (by linarith) (by norm_num)
          linarith

theorem c5_year_multiplier_amended_witness :
    ((0 : ℝ) < 7.5 ∧
      0.3 ≤ v2_year_multiplier (some 7.5) ∧ v2_year_multiplier (some 7.5) ≤ 1) ∧
    ((3 : ℝ) ≤ 9 ∧
      v2_year_multiplier (some 3) ≤ v2_year_multiplier (some 9)) :=
  ⟨⟨by norm_num, c5_year_multiplier_amended.1 7.5 (by norm_num)⟩,
   ⟨by norm_num, c5_year_multiplier_amended.2.2.2.1 3 9 (by norm_num)⟩⟩

/-! ## C4 -/

/-- C4: the year multiplier equals the claimed piecewise formula,
`year_multiplier(15) = 1.0`, and for a patent whose remaining years are 0
every additive-family final score of `compute_old_v2` (each profile and the
unified mean) is 0 regardless of all other metric values. -/
theorem c4_zero_years_forces_zero :
    (∀ y : ℝ, v2_year_multiplier (some y) =
      if y ≤ 0 then 0 else if 15 ≤ y then 1
      else 0.3 + 0.7 * (y / 15) ^ (0.8 : ℝ)) ∧
    v2_year_multiplier (some 15) = 1 ∧
    (∀ (patent : Patent) (cap_cc : Option ℝ),
      patent "years_remaining" = some 0 →
      (compute_old_v2 patent cap_cc).aggressive = 0 ∧
      (compute_old_v2 patent cap_cc).moderate = 0 ∧
      (compute_old_v2 patent cap_cc).conservative = 0 ∧
      (compute_old_v2 patent cap_cc).unified = 0) := by
  refine ⟨fun y => rfl, v2ym_one (by norm_num), ?_⟩
  intro patent cap_cc h
  have hym : v2_year_multiplier (some (pget patent "years_remaining" 0)) = 0 := by
    rw [pget, h]
    exact v2ym_zero le_rfl
  simp [compute_old_v2, hym]

theorem c4_zero_years_forces_zero_witness :
    onlyYearsZero "years_remaining" = some 0 ∧
    (compute_old_v2 onlyYearsZero none).aggressive = 0 ∧
    (compute_old_v2 onlyYearsZero none).unified = 0 :=
  ⟨by simp [onlyYearsZero],
   (c4_zero_years_forces_zero.2.2 onlyYearsZero none (by simp [onlyYearsZero])).1,
   (c4_zero_years_forces_zero.2.2 onlyYearsZero none (by simp [onlyYearsZero])).2.2.2⟩

theorem c8_spearman_amended_witness :
    (2 ≤ ([4, 7] : List ℚ).length ∧ spearman [4, 7] [4, 7] = 1) ∧
    (2 ≤ 2 ∧ spearman (rankVec 2) (rankVec 2).reverse = -1) :=
  ⟨⟨by norm_num, c8_spearman_amended.1 [4, 7] (by norm_num)⟩,
   ⟨by norm_num, c8_spearman_amended.2 2 (by norm_num)⟩⟩

/-! ## V2 additive helpers -/

theorem v2_always_step_eq (w nrm : ℝ) (acc : ℝ × ℝ) :
    v2_always_step w nrm acc = (acc.1 + w * nrm, acc.2 + w) := by
  rw [v2_always_step]
  by_cases hw : w ≠ 0
  · rw [if_pos hw]
  · push_neg at hw
    rw [if_neg (by simpa using hw), hw]
    simp

theorem v2_opt_fold (patent : Patent) (weights : Weights) (l : List String) :
    ∀ p : ℝ × ℝ, l.foldl (v2_opt_step patent weights) p =
      (p.1 + ((v2_opt_list patent weights l).map (fun q => q.1 * q.2)).sum,
       p.2 + ((v2_opt_list patent weights l).map Prod.fst).sum) := by
  induction l with
  | nil => intro p; simp [v2_opt_list]
  | cons f t ih =>
    intro p
    simp only [List.foldl_cons, v2_opt_list, List.filterMap_cons]
    rcases hf : patent f with _ | v
    · have hstep : v2_opt_step patent weights p f = p := by
        rw [v2_opt_step, hf]
        split <;> rfl
      rw [hstep, ih p]
      rfl
    · have hstep : v2_opt_step patent weights p f =
          (p.1 + weights f * (v / 5), p.2 + weights f) := by
        rw [v2_opt_step, hf]
        by_cases hw : weights f ≠ 0
        · rw [if_pos hw]
          rfl
        · push_neg at hw
          rw [if_neg (by simpa using hw), hw]
          simp
      rw [hstep, ih _]
      simp only [List.map_cons, List.sum_cons, v2_opt_list, Prod.mk.injEq]
      constructor
      · ring
      · ring

/-! ## C2 -/

/-- C2: `v2_base_score` realizes the spec's additive evaluator: always-present
metrics contribute `weight * normalized` unconditionally, optional metrics
contribute exactly when their raw value is present, the denominator sums
exactly the contributed weights, the result is `100 * S / W` (or 0 when `W` is
not positive); in particular an item with no present metric scores exactly 0
under every weight map. -/
theorem c2_v2_base_score_additive :
    (∀ (patent : Patent) (weights : Weights) (cap_cc : Option ℝ),
      v2_base_score patent weights cap_cc =
        evaluate_additive_spec patent weights cap_cc) ∧
    (∀ (patent : Patent) (weights : Weights) (cap_cc : Option ℝ),
      (∀ f, patent f = none) → v2_base_score patent weights cap_cc = 0) := by
  have key : ∀ S W S2 W2 : ℝ, S = S2 → W = W2 →
      (if 0 < W then S / W * 100 else 0) =
      (if 0 < W2 then 100 * S2 / W2 else 0) := by
    intro S W S2 W2 hS hW
    subst hS
    subst hW
    split <;> ring
  have heq : ∀ (patent : Patent) (weights : Weights) (cap_cc : Option ℝ),
      v2_base_score patent weights cap_cc =
        evaluate_additive_spec patent weights cap_cc := by
    intro patent weights cap_cc
    simp only [v2_base_score, evaluate_additive_spec, v2_always_step_eq,
      v2_opt_fold patent weights V2_OPTIONAL_FIELDS, v2_opt_list,
      List.map_append, List.sum_append, List.map_cons, List.sum_cons,
      List.map_nil, List.sum_nil]
    apply key <;> ring
  refine ⟨heq, ?_⟩
  intro patent weights cap_cc hall
  rw [heq patent weights cap_cc]
  have hsqrt0 : ∀ c mx : ℝ, c ≤ 0 → v2_normalize_sqrt (some c) mx = 0 := by
    intro c mx hc
    simp [v2_normalize_sqrt, hc]
  simp only [evaluate_additive_spec, pget, hall, Option.getD_none]
  have hcc : v2_normalize_sqrt
      (some (match cap_cc with | none => (0 : ℝ) | some c => min 0 c)) 50 = 0 := by
    rcases cap_cc with _ | c
    · exact hsqrt0 0 50 le_rfl
    · exact hsqrt0 _ 50 (min_le_left 0 c)
  rw [hcc, hsqrt0 0 500 le_rfl]
  have hlin : v2_normalize_linear (some (0 : ℝ)) 10 = 0 := by
    simp only [v2_normalize_linear]
    rw [zero_div]
    exact min_eq_right (by norm_num)
  have hyrs : v2_normalize_years (some (0 : ℝ)) = 0 := by
    simp [v2_normalize_years]
  rw [hlin, hyrs]
  simp [V2_OPTIONAL_FIELDS]

theorem c2_v2_base_score_additive_witness :
    (∀ f, emptyPatent f = none) ∧
    v2_base_score emptyPatent V2_aggressive none = 0 :=
  ⟨fun _ => rfl,
   c2_v2_base_score_additive.2 emptyPatent V2_aggressive none (fun _ => rfl)⟩

/-! ## V3 multiplicative helpers -/

theorem factorAccum_fold (patent : Patent) (cap_cc : Option ℝ)
    (metrics : List MetricW) :
    ∀ p : ℝ × ℝ,
      metrics.foldl
        (fun acc m =>
          (acc.1 + m.weight * metricNormalized patent cap_cc m, acc.2 + m.weight))
        p =
      (p.1 + (metrics.map
        (fun m => m.weight * metricNormalized patent cap_cc m)).sum,
       p.2 + (metrics.map MetricW.weight).sum) := by
  induction metrics with
  | nil => intro p; simp
  | cons m t ih =>
    intro p
    simp only [List.foldl_cons, List.map_cons, List.sum_cons, ih,
      Prod.mk.injEq]
    constructor <;> ring

theorem factorAccum_eq (patent : Patent) (cap_cc : Option ℝ)
    (metrics : List MetricW) :
    factorAccum patent cap_cc metrics =
      ((metrics.map (fun m => m.weight * metricNormalized patent cap_cc m)).sum,
       (metrics.map MetricW.weight).sum) := by
  rw [factorAccum, factorAccum_fold]
  simp

theorem factorScore_spec (patent : Patent) (cap_cc : Option ℝ) (fa : Factor)
    (hw : ∀ m ∈ fa.metrics, 0 ≤ m.weight) :
    factorScore patent cap_cc fa = factor_spec_score patent cap_cc fa := by
  rw [factorScore, factor_spec_score, factorAccum_eq]
  by_cases hW : 0 < (fa.metrics.map MetricW.weight).sum
  · simp only [hW, if_pos]
  · have hW0 : (fa.metrics.map MetricW.weight).sum = 0 :=
      le_antisymm (not_lt.mp hW)
        (List.sum_nonneg (by intro x hx
                             obtain ⟨m, hm, rfl⟩ := List.mem_map.mp hx
                             exact hw m hm))
    simp [hW0, div_zero]

theorem dictInsert_notmem {k : String} {v : ℝ} :
    ∀ {d : List (String × ℝ)}, (∀ p ∈ d, p.1 ≠ k) →
      dictInsert k v d = d ++ [(k, v)] := by
  intro d
  induction d with
  | nil => intro _; rfl
  | cons q t ih =>
    intro h
    rw [dictInsert]
    rw [if_neg (h q (List.mem_cons_self q t))]
    rw [ih (fun p hp => h p (List.mem_cons_of_mem q hp))]
    rfl

theorem fold_dict_eq (score : Factor → ℝ) :
    ∀ (fas : List Factor) (init : List (String × ℝ)),
      (∀ p ∈ init, ∀ fa ∈ fas, p.1 ≠ fa.name) →
      (fas.map Factor.name).Nodup →
      fas.foldl (fun d fa => dictInsert fa.name (score fa) d) init =
        init ++ fas.map (fun fa => (fa.name, score fa)) := by
  intro fas
  induction fas with
  | nil => intro init _ _; simp
  | cons fa t ih =>
    intro init hdisj hnd
    simp only [List.map_cons, List.nodup_cons, List.mem_map] at hnd
    simp only [List.foldl_cons]
    rw [dictInsert_notmem
      (fun p hp => hdisj p hp fa (List.mem_cons_self fa t))]
    rw [ih (init ++ [(fa.name, score fa)]) ?_ hnd.2]
    · simp
    · intro p hp fb hfb
      rcases List.mem_append.mp hp with hp1 | hp2
      · exact hdisj p hp1 fb (List.mem_cons_of_mem fa hfb)
      · have : p = (fa.name, score fa) := by simpa using hp2
        rw [this]
        intro hcontra
        exact hnd.1 ⟨fb, hfb, hcontra.symm⟩

theorem compute_v3_eq_map (patent : Patent) (profile : Profile)
    (cap_cc : Option ℝ) (hnd : (profile.factors.map Factor.name).Nodup) :
    (compute_v3_profile_score patent profile cap_cc).2 =
      profile.factors.map
        (fun fa => (fa.name, factorScore patent cap_cc fa)) := by
  rw [compute_v3_profile_score]
  simp only
  rw [fold_dict_eq (factorScore patent cap_cc) profile.factors []
    (by intro p hp; simp at hp) hnd]
  simp

theorem compute_v3_snd (patent : Patent) (profile : Profile)
    (cap_cc : Option ℝ) :
    (compute_v3_profile_score patent profile cap_cc).2 =
      profile.factors.foldl
        (fun d factor => dictInsert factor.name (factorScore patent cap_cc factor) d)
        [] := by
  rw [compute_v3_profile_score]

theorem compute_v3_fst (patent : Patent) (profile : Profile)
    (cap_cc : Option ℝ) :
    (compute_v3_profile_score patent profile cap_cc).1 =
      (((compute_v3_profile_score patent profile cap_cc).2.map Prod.snd).foldl
        (fun x s => x * s) 1) * 100 := by
  rw [compute_v3_profile_score]

theorem sortSteps_sorted_id {l : List Step}
    (h : l.Pairwise (fun a b => b.threshold ≤ a.threshold)) :
    sortSteps l = l := by
  rw [sortSteps]
  exact List.mergeSort_of_sorted (h.imp (fun hab => decide_eq_true hab))

theorem dictInsert_snd_pred {P : ℝ → Prop} {k : String} {v : ℝ} :
    ∀ {d : List (String × ℝ)}, P v → (∀ p ∈ d, P p.2) →
      ∀ p ∈ dictInsert k v d, P p.2 := by
  intro d
  induction d with
  | nil =>
    intro hv _ p hp
    simp only [dictInsert, List.mem_singleton] at hp
    rw [hp]
    exact hv
  | cons q t ih =>
    intro hv hd p hp
    rw [dictInsert] at hp
    split at hp
    · rcases List.mem_cons.mp hp with rfl | hp2
      · exact hv
      · exact hd p (List.mem_cons_of_mem q hp2)
    · rcases List.mem_cons.mp hp with rfl | hp2
      · exact hd q (List.mem_cons_self q t)
      · exact ih hv (fun x hx => hd x (List.mem_cons_of_mem q hx)) p hp2

theorem fold_dict_snd_pred (P : ℝ → Prop) (score : Factor → ℝ) :
    ∀ (fas : List Factor) (init : List (String × ℝ)),
      (∀ p ∈ init, P p.2) → (∀ fa ∈ fas, P (score fa)) →
      ∀ p ∈ fas.foldl (fun d fa => dictInsert fa.name (score fa) d) init,
        P p.2 := by
  intro fas
  induction fas with
  | nil => intro init hi _ p hp; exact hi p hp
  | cons fa t ih =>
    intro init hi hs p hp
    simp only [List.foldl_cons] at hp
    exact ih (dictInsert fa.name (score fa) init)
      (dictInsert_snd_pred (hs fa (List.mem_cons_self fa t)) hi)
      (fun fb hfb => hs fb (List.mem_cons_of_mem fa hfb)) p hp

/-! ## C3 -/

/-- C3: for every patent, every multiplicative profile (well-formed: factor
names distinct, metric weights non-negative) and any citation cap, the
factor-scores dict of `compute_v3_profile_score` records, per factor, the
weighted average of its metrics' normalized values (the configured default
substituted for an absent raw value) floored at the factor's configured
minimum; hence no factor's score is below its floor; and the final score is
100 times the product of all factor scores. -/
theorem c3_v3_profile_score_shape :
    ∀ (patent : Patent) (profile : Profile) (cap_cc : Option ℝ),
      (profile.factors.map Factor.name).Nodup →
      (∀ fa ∈ profile.factors, ∀ m ∈ fa.metrics, 0 ≤ m.weight) →
      (compute_v3_profile_score patent profile cap_cc).2 =
        profile.factors.map
          (fun fa => (fa.name, factor_spec_score patent cap_cc fa)) ∧
      (∀ fa ∈ profile.factors,
        fa.floor ≤ factor_spec_score patent cap_cc fa) ∧
      (compute_v3_profile_score patent profile cap_cc).1 =
        100 * (profile.factors.map
          (fun fa => factor_spec_score patent cap_cc fa)).prod := by
  intro patent profile cap_cc hnd hw
  have hmap : (compute_v3_profile_score patent profile cap_cc).2 =
      profile.factors.map
        (fun fa => (fa.name, factor_spec_score patent cap_cc fa)) := by
    rw [compute_v3_eq_map patent profile cap_cc hnd]
    apply List.map_congr_left
    intro fa hfa
    rw [factorScore_spec patent cap_cc fa (hw fa hfa)]
  refine ⟨hmap, ?_, ?_⟩
  · intro fa _
    exact le_max_left _ _
  · have h1 : (compute_v3_profile_score patent profile cap_cc).1 =
        (((compute_v3_profile_score patent profile cap_cc).2.map
          Prod.snd).foldl (fun x s => x * s) 1) * 100 := by
      rw [compute_v3_profile_score]
    rw [h1, hmap, ← List.prod_eq_foldl, List.map_map]
    rw [mul_comm]
    congr 1

theorem c3_v3_profile_score_shape_witness :
    (synthProfile.factors.map Factor.name).Nodup ∧
    (compute_v3_profile_score emptyPatent synthProfile none).1 =
      100 * (synthProfile.factors.map
        (fun fa => factor_spec_score emptyPatent none fa)).prod :=
  ⟨by simp [synthProfile], (c3_v3_profile_score_shape emptyPatent synthProfile
      none (by simp [synthProfile])
      (by intro fa hfa m hm
          simp only [synthProfile, List.mem_cons, List.not_mem_nil,
            or_false] at hfa
          rcases hfa with rfl | rfl <;>
            (simp only [List.mem_cons, List.not_mem_nil, or_false] at hm;
             rw [hm]; norm_num))).2.2⟩

/-! ## C7 -/

/-- C7 counterexample: in `ip-lit-aggressive` the `CollectionYield` factor has
floor 0.20 and configured defaults 3.0, 3.0, 4.0; on a patent with all of that
factor's metrics absent the recorded factor score is the default-substituted
weighted average `0.40*0.5 + 0.35*0.5 + 0.25*0.75 = 0.5625`, not `0.20` — the
floor does not bite, so the claim's "equals exactly 0.20" is false. -/
theorem c7_counterexample :
    dictGet "CollectionYield"
      (compute_v3_profile_score emptyPatent ip_lit_aggressive none).2 =
      some 0.5625 ∧ (0.5625 : ℝ) ≠ 0.20 := by
  constructor
  · have hnd : (ip_lit_aggressive.factors.map Factor.name).Nodup := by
      simp [ip_lit_aggressive]
    rw [compute_v3_eq_map _ _ _ hnd]
    simp only [ip_lit_aggressive, List.map_cons, List.map_nil]
    norm_num +decide [dictGet, factorScore, factorAccum_eq, metricNormalized,
      v3_normalize, emptyPatent, SCORE5, max_def, min_def]
  · norm_num

/-- C7 amended: a factor's recorded score is the default-substituted weighted
average floored at the minimum, so it equals the 0.20 floor exactly only when
that average is at most 0.20: the `TimelineMargin` factor of
`ip-lit-conservative` (floor 0.20, no configured default, stepped value 0.10
at 0) scores exactly 0.20 when `years_remaining` is absent; and the final
multiplicative score is positive whenever every factor's floor is positive. -/
theorem c7_floor_and_positivity :
    dictGet "TimelineMargin"
      (compute_v3_profile_score emptyPatent ip_lit_conservative none).2 =
      some 0.20 ∧
    (∀ (patent : Patent) (profile : Profile) (cap_cc : Option ℝ),
      (∀ fa ∈ profile.factors, 0 < fa.floor) →
      0 < (compute_v3_profile_score patent profile cap_cc).1) := by
  constructor
  · have hnd : (ip_lit_conservative.factors.map Factor.name).Nodup := by
      simp [ip_lit_conservative]
    have hsort : sortSteps
        [⟨12, 1⟩, ⟨9, 17 / 20⟩, ⟨7, 13 / 20⟩, ⟨5, 2 / 5⟩, ⟨3, 1 / 5⟩,
          ⟨0, 1 / 10⟩] =
        [⟨12, 1⟩, ⟨9, 17 / 20⟩, ⟨7, 13 / 20⟩, ⟨5, 2 / 5⟩, ⟨3, 1 / 5⟩,
          ⟨0, 1 / 10⟩] :=
      sortSteps_sorted_id (by norm_num [List.Pairwise])
    have hstep : steppedLookup (0 : ℝ) (sortSteps
        [⟨12, 1⟩, ⟨9, 17 / 20⟩, ⟨7, 13 / 20⟩, ⟨5, 2 / 5⟩, ⟨3, 1 / 5⟩,
          ⟨0, 1 / 10⟩]) = 1 / 10 := by
      rw [hsort]
      norm_num [steppedLookup]
    rw [compute_v3_eq_map _ _ _ hnd]
    simp only [ip_lit_conservative, List.map_cons, List.map_nil]
    norm_num +decide [dictGet, factorScore, factorAccum_eq, metricNormalized,
      v3_normalize, emptyPatent, hstep, max_def, min_def]
  · intro patent profile cap_cc hfl
    rw [compute_v3_fst, ← List.prod_eq_foldl]
    have hvals : ∀ p ∈ (compute_v3_profile_score patent profile cap_cc).2,
        0 < p.2 := by
      rw [compute_v3_snd]
      apply fold_dict_snd_pred (fun x => 0 < x)
        (factorScore patent cap_cc) profile.factors []
      · intro p hp
        simp at hp
      · intro fa hfa
        calc (0 : ℝ) < fa.floor := hfl fa hfa
          _ ≤ factorScore patent cap_cc fa := le_max_left _ _
    have hprod : 0 <
        ((compute_v3_profile_score patent profile cap_cc).2.map Prod.snd).prod := by
      apply List.prod_pos
      intro x hx
      obtain ⟨p, hp, rfl⟩ := List.mem_map.mp hx
      exact hvals p hp
    exact mul_pos hprod (by norm_num)

theorem c7_floor_and_positivity_witness :
    (∀ fa ∈ ip_lit_conservative.factors, 0 < fa.floor) ∧
    0 < (compute_v3_profile_score emptyPatent ip_lit_conservative none).1 :=
  ⟨by intro fa hfa
      simp only [ip_lit_conservative, List.mem_cons, List.not_mem_nil,
        or_false] at hfa
      rcases hfa with rfl | rfl | rfl | rfl <;> norm_num,
   c7_floor_and_positivity.2 emptyPatent ip_lit_conservative none
     (by intro fa hfa
         simp only [ip_lit_conservative, List.mem_cons, List.not_mem_nil,
           or_false] at hfa
         rcases hfa with rfl | rfl | rfl | rfl <;> norm_num)⟩

/-! ## Normalization monotonicity helpers (for C6) -/

theorem v3_normalize_eq_normVal (raw : Option ℝ) (c : NormConfig) (d : ℝ) :
    v3_normalize raw c d = normVal c (raw.getD d) := by
  cases raw <;> rfl

theorem normVal_score5_mono : Monotone (normVal .score5) := by
  intro v1 v2 hv
  simp only [normVal, v3_normalize, Option.getD_some]
  exact max_le_max le_rfl (min_le_min le_rfl (by linarith))

theorem normVal_sqrt_mono {mx : ℝ} (hmx : 0 < mx) :
    Monotone (normVal (.sqrt mx)) := by
  intro v1 v2 hv
  simp only [normVal, v3_normalize, Option.getD_some]
  refine min_le_min le_rfl ?_
  rw [div_le_div_iff_of_pos_right (Real.sqrt_pos.mpr hmx)]
  exact Real.sqrt_le_sqrt (max_le_max le_rfl hv)

theorem normVal_linear_mono {mx : ℝ} (hmx : 0 < mx) :
    Monotone (normVal (.linear mx)) := by
  intro v1 v2 hv
  simp only [normVal, v3_normalize, Option.getD_some]
  refine min_le_min le_rfl (max_le_max le_rfl ?_)
  rw [div_le_div_iff_of_pos_right hmx]
  exact hv

theorem steppedLookup_mono {l : List Step}
    (hth : l.Pairwise (fun a b => b.threshold ≤ a.threshold))
    (hval : l.Pairwise (fun a b => b.value ≤ a.value))
    (hnn : ∀ s ∈ l, 0 ≤ s.value) :
    ∀ v1 v2, v1 ≤ v2 → steppedLookup v1 l ≤ steppedLookup v2 l := by
  induction l with
  | nil => intro v1 v2 _; simp [steppedLookup]
  | cons s t ih =>
    intro v1 v2 hv
    rw [List.pairwise_cons] at hth hval
    simp only [steppedLookup]
    by_cases h1 : s.threshold ≤ v1
    · rw [if_pos h1, if_pos (le_trans h1 hv)]
    · rw [if_neg h1]
      by_cases h2 : s.threshold ≤ v2
      · rw [if_pos h2]
        exact steppedLookup_le (fun x hx => hval.1 x hx)
          (hnn s (List.mem_cons_self s t)) v1
      · rw [if_neg h2]
        exact ih hth.2 hval.2
          (fun x hx => hnn x (List.mem_cons_of_mem s hx)) v1 v2 hv

theorem normVal_stepped_mono {steps : List Step}
    (hth : steps.Pairwise (fun a b => b.threshold ≤ a.threshold))
    (hval : steps.Pairwise (fun a b => b.value ≤ a.value))
    (hnn : ∀ s ∈ steps, 0 ≤ s.value) :
    Monotone (normVal (.stepped steps)) := by
  intro v1 v2 hv
  simp only [normVal, v3_normalize, Option.getD_some, sortSteps_sorted_id hth]
  exact steppedLookup_mono hth hval hnn v1 v2 hv

theorem normVal_stepped_nonneg {steps : List Step}
    (hth : steps.Pairwise (fun a b => b.threshold ≤ a.threshold))
    (hnn : ∀ s ∈ steps, 0 ≤ s.value) :
    ∀ v, 0 ≤ normVal (.stepped steps) v := by
  intro v
  simp only [normVal, v3_normalize, Option.getD_some, sortSteps_sorted_id hth]
  exact steppedLookup_nonneg hnn v

/-! ## Tiered-continuous monotonicity (for C6) -/

theorem tiered_cons_eval_in {t : Tier} {rest : List Tier} {v : ℝ} (d : ℝ)
    (hc : t.min ≤ v ∧ v < t.max) :
    v3_normalize (some v) (.tiered (t :: rest)) d =
      t.baseValue + (v - t.min) / (t.max - t.min) * t.slope := by
  simp only [v3_normalize, Option.getD_some, tieredLookup, if_pos hc]

theorem tiered_cons_eval_skip {t u : Tier} {rest : List Tier} {v : ℝ} (d : ℝ)
    (hc : ¬ (t.min ≤ v ∧ v < t.max)) :
    v3_normalize (some v) (.tiered (t :: u :: rest)) d =
      v3_normalize (some v) (.tiered (u :: rest)) d := by
  simp only [v3_normalize, Option.getD_some, tieredLookup, if_neg hc,
    List.getLast?_cons_cons]

theorem tiered_singleton_eval {t : Tier} {v : ℝ} (d : ℝ) :
    v3_normalize (some v) (.tiered [t]) d =
      if t.min ≤ v ∧ v < t.max then
        t.baseValue + (v - t.min) / (t.max - t.min) * t.slope
      else if t.max ≤ v then t.baseValue + t.slope else 0 := by
  by_cases hc : t.min ≤ v ∧ v < t.max
  · simp [v3_normalize, tieredLookup, hc]
  · simp [v3_normalize, tieredLookup, hc]

theorem tieredLookup_nonneg2 {L : List Tier}
    (h : ∀ x ∈ L, 0 ≤ x.baseValue ∧ 0 ≤ x.slope ∧ x.min < x.max) :
    ∀ {v r : ℝ}, tieredLookup v L = some r → 0 ≤ r := by
  induction L with
  | nil => intro v r hr; simp [tieredLookup] at hr
  | cons t rest ih =>
    intro v r hr
    rw [tieredLookup] at hr
    split at hr
    · rename_i hc
      obtain ⟨hb, hs, hmm2⟩ := h t (List.mem_cons_self t rest)
      injection hr with hr
      have hp : 0 ≤ (v - t.min) / (t.max - t.min) :=
        div_nonneg (by linarith [hc.1]) (by linarith)
      have := mul_nonneg hp hs
      linarith [hr]
    · exact ih (fun x hx => h x (List.mem_cons_of_mem t hx)) hr

theorem tiered_nonneg (L : List Tier) (d v : ℝ)
    (h : ∀ x ∈ L, 0 ≤ x.baseValue ∧ 0 ≤ x.slope ∧ x.min < x.max) :
    0 ≤ v3_normalize (some v) (.tiered L) d := by
  simp only [v3_normalize, Option.getD_some]
  rcases hl : tieredLookup v L with _ | r
  · rcases hlast : L.getLast? with _ | last
    · simp
    · obtain ⟨hb, hs, _⟩ := h last (getLast?_mem_list hlast)
      simp only
      split
      · linarith
      · norm_num
  · simp only
    exact tieredLookup_nonneg2 h hl

theorem tiered_lb : ∀ (t : Tier) (rest : List Tier) (d : ℝ),
    (∀ x ∈ t :: rest, 0 ≤ x.baseValue ∧ 0 ≤ x.slope ∧ x.min < x.max) →
    (t :: rest).Chain'
      (fun a b => a.max = b.min ∧ a.baseValue + a.slope ≤ b.baseValue) →
    ∀ v, t.min ≤ v →
      t.baseValue ≤ v3_normalize (some v) (.tiered (t :: rest)) d := by
  intro t rest
  induction rest generalizing t with
  | nil =>
    intro d hper _ v hv
    obtain ⟨hb, hs, hmm2⟩ := hper t (List.mem_cons_self t [])
    rw [tiered_singleton_eval]
    by_cases hc : t.min ≤ v ∧ v < t.max
    · rw [if_pos hc]
      have : 0 ≤ (v - t.min) / (t.max - t.min) * t.slope :=
        mul_nonneg (div_nonneg (by linarith) (by linarith)) hs
      linarith
    · rw [if_neg hc]
      have hge : t.max ≤ v := by
        by_contra hlt
        exact hc ⟨hv, lt_of_not_le hlt⟩
      rw [if_pos hge]
      linarith
  | cons u rest2 ih =>
    intro d hper hchain v hv
    obtain ⟨hb, hs, hmm2⟩ := hper t (List.mem_cons_self t (u :: rest2))
    by_cases hc : t.min ≤ v ∧ v < t.max
    · rw [tiered_cons_eval_in d hc]
      have : 0 ≤ (v - t.min) / (t.max - t.min) * t.slope :=
        mul_nonneg (div_nonneg (by linarith) (by linarith)) hs
      linarith
    · rw [tiered_cons_eval_skip d hc]
      rw [List.chain'_cons] at hchain
      obtain ⟨⟨hmax_eq, hble⟩, hchain2⟩ := hchain
      have hge : t.max ≤ v := by
        by_contra hlt
        exact hc ⟨hv, lt_of_not_le hlt⟩
      have hrec := ih u d
        (fun x hx => hper x (List.mem_cons_of_mem t hx)) hchain2 v
        (by rw [← hmax_eq]; exact hge)
      linarith

theorem tiered_below : ∀ (t : Tier) (rest : List Tier) (d : ℝ),
    (∀ x ∈ t :: rest, x.min < x.max) →
    (t :: rest).Chain'
      (fun a b => a.max = b.min ∧ a.baseValue + a.slope ≤ b.baseValue) →
    ∀ v, v < t.min →
      v3_normalize (some v) (.tiered (t :: rest)) d = 0 := by
  intro t rest
  induction rest generalizing t with
  | nil =>
    intro d hper _ v hv
    have hmm2 := hper t (List.mem_cons_self t [])
    rw [tiered_singleton_eval]
    rw [if_neg (by intro hcon; linarith [hcon.1])]
    rw [if_neg (by linarith)]
  | cons u rest2 ih =>
    intro d hper hchain v hv
    have hmm2 := hper t (List.mem_cons_self t (u :: rest2))
    rw [tiered_cons_eval_skip d (by intro hcon; linarith [hcon.1])]
    rw [List.chain'_cons] at hchain
    obtain ⟨⟨hmax_eq, _⟩, hchain2⟩ := hchain
    exact ih u d (fun x hx => hper x (List.mem_cons_of_mem t hx)) hchain2 v
      (by rw [← hmax_eq]; linarith)

theorem tiered_mono : ∀ (L : List Tier) (d : ℝ),
    (∀ x ∈ L, 0 ≤ x.baseValue ∧ 0 ≤ x.slope ∧ x.min < x.max) →
    L.Chain' (fun a b => a.max = b.min ∧ a.baseValue + a.slope ≤ b.baseValue) →
    ∀ v1 v2, v1 ≤ v2 →
      v3_normalize (some v1) (.tiered L) d ≤
        v3_normalize (some v2) (.tiered L) d := by
  intro L
  induction L with
  | nil =>
    intro d _ _ v1 v2 _
    simp [v3_normalize, tieredLookup]
  | cons t rest ih =>
    intro d hper hchain v1 v2 hv
    obtain ⟨hb, hs, hmm2⟩ := hper t (List.mem_cons_self t rest)
    by_cases hc1 : t.min ≤ v1 ∧ v1 < t.max
    · by_cases hc2 : t.min ≤ v2 ∧ v2 < t.max
      · rw [tiered_cons_eval_in d hc1, tiered_cons_eval_in d hc2]
        have hple : (v1 - t.min) / (t.max - t.min) ≤
            (v2 - t.min) / (t.max - t.min) := by
          rw [div_le_div_iff_of_pos_right (by linarith)]
          linarith
        have := mul_le_mul_of_nonneg_right hple hs
        linarith
      · have hge2 : t.max ≤ v2 := by
          rcases not_and_or.mp hc2 with h | h
          · exact absurd (le_trans hc1.1 hv) h
          · exact not_lt.mp h
        rw [tiered_cons_eval_in d hc1]
        have hp1 : (v1 - t.min) / (t.max - t.min) ≤ 1 :=
          (div_le_one (by linarith)).mpr (by linarith [hc1.2])
        have haff : t.baseValue + (v1 - t.min) / (t.max - t.min) * t.slope ≤
            t.baseValue + t.slope := by
          have := mul_le_mul_of_nonneg_right hp1 hs
          linarith
        cases rest with
        | nil =>
          rw [tiered_singleton_eval, if_neg hc2, if_pos hge2]
          exact haff
        | cons u rest2 =>
          rw [tiered_cons_eval_skip d hc2]
          rw [List.chain'_cons] at hchain
          obtain ⟨⟨hmax_eq, hble⟩, hchain2⟩ := hchain
          have hlb := tiered_lb u rest2 d
            (fun x hx => hper x (List.mem_cons_of_mem t hx)) hchain2 v2
            (by rw [← hmax_eq]; exact hge2)
          linarith
    · by_cases hlt1 : v1 < t.min
      · rw [tiered_below t rest d (fun x hx => (hper x hx).2.2) hchain v1 hlt1]
        exact tiered_nonneg (t :: rest) d v2 hper
      · have hge1 : t.max ≤ v1 := by
          rcases not_and_or.mp hc1 with h | h
          · exact absurd (not_lt.mp hlt1) h
          · exact not_lt.mp h
        have hge2 : t.max ≤ v2 := le_trans hge1 hv
        have hc2 : ¬ (t.min ≤ v2 ∧ v2 < t.max) := by
          intro hcon
          linarith [hcon.2]
        cases rest with
        | nil =>
          rw [tiered_singleton_eval, tiered_singleton_eval, if_neg hc1,
            if_neg hc2, if_pos hge1, if_pos hge2]
        | cons u rest2 =>
          rw [tiered_cons_eval_skip d hc1, tiered_cons_eval_skip d hc2]
          rw [List.chain'_cons] at hchain
          exact ih d (fun x hx => hper x (List.mem_cons_of_mem t hx))
            hchain.2 v1 v2 hv

theorem normVal_tiered_mono {tiers : List Tier}
    (hper : ∀ x ∈ tiers, 0 ≤ x.baseValue ∧ 0 ≤ x.slope ∧ x.min < x.max)
    (hchain : tiers.Chain'
      (fun a b => a.max = b.min ∧ a.baseValue + a.slope ≤ b.baseValue)) :
    Monotone (normVal (.tiered tiers)) :=
  fun v1 v2 hv => tiered_mono tiers 0 hper hchain v1 v2 hv

theorem normVal_tiered_nonneg {tiers : List Tier}
    (hper : ∀ x ∈ tiers, 0 ≤ x.baseValue ∧ 0 ≤ x.slope ∧ x.min < x.max) :
    ∀ v, 0 ≤ normVal (.tiered tiers) v :=
  fun v => tiered_nonneg tiers 0 v hper

/-! ## Metric-, factor- and dict-level comparison (for C6) -/

theorem metricNormalized_nonneg {p : Patent} {cap : Option ℝ} {m : MetricW}
    (h : ∀ v, 0 ≤ normVal m.normalize v) :
    0 ≤ metricNormalized p cap m := by
  simp only [metricNormalized, v3_normalize_eq_normVal]
  exact h _

theorem metricNormalized_mono {p1 p2 : Patent} {cap : Option ℝ} {m : MetricW}
    (hmono : Monotone (normVal m.normalize))
    (h : p2 m.field = p1 m.field ∨
      ∃ v1 v2, p1 m.field = some v1 ∧ p2 m.field = some v2 ∧ v2 ≤ v1) :
    metricNormalized p2 cap m ≤ metricNormalized p1 cap m := by
  rcases h with heq | ⟨v1, v2, h1, h2, hle⟩
  · simp only [metricNormalized, heq]
    exact le_rfl
  · simp only [metricNormalized, h1, h2, v3_normalize_eq_normVal]
    by_cases hf : m.field = "competitor_citations"
    · rw [if_pos hf, if_pos hf]
      rcases cap with _ | c
      · simp only [Option.getD_some]
        exact hmono hle
      · simp only [Option.getD_some]
        exact hmono (min_le_min hle le_rfl)
    · rw [if_neg hf, if_neg hf]
      simp only [Option.getD_some]
      exact hmono hle

theorem factorScore_mono {p1 p2 : Patent} {cap : Option ℝ} {fa : Factor}
    (hok : ∀ m ∈ fa.metrics, MetricOK m)
    (hp : ∀ f, p2 f = p1 f ∨
      ∃ v1 v2, p1 f = some v1 ∧ p2 f = some v2 ∧ v2 ≤ v1) :
    factorScore p2 cap fa ≤ factorScore p1 cap fa := by
  rw [factorScore, factorScore, factorAccum_eq, factorAccum_eq]
  simp only
  have hS : (fa.metrics.map
        (fun m => m.weight * metricNormalized p2 cap m)).sum ≤
      (fa.metrics.map (fun m => m.weight * metricNormalized p1 cap m)).sum := by
    apply List.sum_le_sum
    intro m hm
    obtain ⟨hw, hmono, _⟩ := hok m hm
    exact mul_le_mul_of_nonneg_left
      (metricNormalized_mono hmono (hp m.field)) hw
  apply max_le_max le_rfl
  by_cases hW : 0 < (fa.metrics.map MetricW.weight).sum
  · rw [if_pos hW, if_pos hW]
    exact (div_le_div_iff_of_pos_right hW).mpr hS
  · rw [if_neg hW, if_neg hW]

theorem factorScore_nonneg2 {p : Patent} {cap : Option ℝ} {fa : Factor}
    (hok : ∀ m ∈ fa.metrics, MetricOK m) :
    0 ≤ factorScore p cap fa := by
  rw [factorScore, factorAccum_eq]
  simp only
  have hS : 0 ≤ (fa.metrics.map
      (fun m => m.weight * metricNormalized p cap m)).sum := by
    apply List.sum_nonneg
    intro x hx
    obtain ⟨m, hm, rfl⟩ := List.mem_map.mp hx
    obtain ⟨hw, _, hnn⟩ := hok m hm
    exact mul_nonneg hw (metricNormalized_nonneg hnn)
  refine le_max_of_le_right ?_
  split
  · rename_i hW
    exact div_nonneg hS (le_of_lt hW)
  · exact le_rfl

theorem dictInsert_forall2 {k : String} {v1 v2 : ℝ}
    (hv : v2 ≤ v1) (hv0 : 0 ≤ v2) :
    ∀ {d1 d2 : List (String × ℝ)},
      List.Forall₂ (fun a b => a.1 = b.1 ∧ b.2 ≤ a.2 ∧ 0 ≤ b.2) d1 d2 →
      List.Forall₂ (fun a b => a.1 = b.1 ∧ b.2 ≤ a.2 ∧ 0 ≤ b.2)
        (dictInsert k v1 d1) (dictInsert k v2 d2) := by
  intro d1 d2 h
  induction h with
  | nil =>
    simp only [dictInsert]
    exact List.Forall₂.cons ⟨rfl, hv, hv0⟩ List.Forall₂.nil
  | cons hab hrest ih =>
    rename_i a b l1 l2
    rcases a with ⟨ka, va⟩
    rcases b with ⟨kb, vb⟩
    obtain ⟨hk, hvv, hv0b⟩ := hab
    simp only at hk
    rw [dictInsert, dictInsert]
    by_cases hka : ka = k
    · rw [if_pos hka, if_pos (hk.symm.trans hka)]
      exact List.Forall₂.cons ⟨rfl, hv, hv0⟩ hrest
    · rw [if_neg hka, if_neg (fun hc => hka (hk.trans hc))]
      exact List.Forall₂.cons ⟨hk, hvv, hv0b⟩ ih

theorem fold_dict_forall2 (s1 s2 : Factor → ℝ) :
    ∀ (fas : List Factor),
      (∀ fa ∈ fas, s2 fa ≤ s1 fa ∧ 0 ≤ s2 fa) →
      ∀ {d1 d2 : List (String × ℝ)},
        List.Forall₂ (fun a b => a.1 = b.1 ∧ b.2 ≤ a.2 ∧ 0 ≤ b.2) d1 d2 →
        List.Forall₂ (fun a b => a.1 = b.1 ∧ b.2 ≤ a.2 ∧ 0 ≤ b.2)
          (fas.foldl (fun d fa => dictInsert fa.name (s1 fa) d) d1)
          (fas.foldl (fun d fa => dictInsert fa.name (s2 fa) d) d2) := by
  intro fas
  induction fas with
  | nil => intro _ d1 d2 h; exact h
  | cons fa t ih =>
    intro hle d1 d2 h
    simp only [List.foldl_cons]
    exact ih (fun x hx => hle x (List.mem_cons_of_mem fa hx))
      (dictInsert_forall2 (hle fa (List.mem_cons_self fa t)).1
        (hle fa (List.mem_cons_self fa t)).2 h)

theorem foldl_mul_le :
    ∀ {d1 d2 : List (String × ℝ)},
      List.Forall₂ (fun a b => a.1 = b.1 ∧ b.2 ≤ a.2 ∧ 0 ≤ b.2) d1 d2 →
      ∀ {x1 x2 : ℝ}, x2 ≤ x1 → 0 ≤ x2 →
        (d2.map Prod.snd).foldl (fun x s => x * s) x2 ≤
          (d1.map Prod.snd).foldl (fun x s => x * s) x1 ∧
        0 ≤ (d2.map Prod.snd).foldl (fun x s => x * s) x2 := by
  intro d1 d2 h
  induction h with
  | nil => intro x1 x2 hx hx0; exact ⟨hx, hx0⟩
  | cons hab hrest ih =>
    intro x1 x2 hx hx0
    obtain ⟨_, hba, hb0⟩ := hab
    simp only [List.map_cons, List.foldl_cons]
    exact ih (mul_le_mul hx hba hb0 (le_trans hx0 hx)) (mul_nonneg hx0 hb0)

/-! ## Catalog certification (for C6) -/

theorem profileOK_of_forall {prof : Profile}
    (h : prof.factors.Forall (fun fa => fa.metrics.Forall MetricOK)) :
    ProfileOK prof := by
  intro fa hfa m hm
  rw [List.forall_iff_forall_mem] at h
  have h2 := h fa hfa
  rw [List.forall_iff_forall_mem] at h2
  exact h2 m hm

theorem profileOK_ip_lit_aggressive : ProfileOK ip_lit_aggressive := by
  apply profileOK_of_forall
  simp only [ip_lit_aggressive, CITATIONS_AGGRESSIVE, CITATIONS_STANDARD,
    YEARS_LITIGATION, SCORE5, List.Forall, and_true, MetricOK]
  repeat' apply And.intro
  all_goals
    first
    | (norm_num; done)
    | exact normVal_score5_mono
    | exact fun v => (v3n_score5_mem (some v) 0).1
    | (apply normVal_sqrt_mono <;> norm_num)
    | exact fun v => (v3n_sqrt_mem (some v) _ 0).1
    | (apply normVal_linear_mono <;> norm_num)
    | exact fun v => (v3n_linear_mem (some v) _ 0).1
    | (apply normVal_stepped_mono <;>
        first
        | (norm_num [List.Pairwise]; done)
        | (intro s hs; fin_cases hs <;> norm_num))
    | (apply normVal_stepped_nonneg <;>
        first
        | (norm_num [List.Pairwise]; done)
        | (intro s hs; fin_cases hs <;> norm_num))
    | (apply normVal_tiered_mono <;>
        first
        | (intro x hx; fin_cases hx <;> norm_num)
        | (norm_num [List.chain'_cons, List.chain'_singleton]; done))
    | (apply normVal_tiered_nonneg <;>
        (intro x hx; fin_cases hx <;> norm_num))

theorem profileOK_ip_lit_balanced : ProfileOK ip_lit_balanced := by
  apply profileOK_of_forall
  simp only [ip_lit_balanced, CITATIONS_AGGRESSIVE, CITATIONS_STANDARD,
    YEARS_LITIGATION, SCORE5, List.Forall, and_true, MetricOK]
  repeat' apply And.intro
  all_goals
    first
    | (norm_num; done)
    | exact normVal_score5_mono
    | exact fun v => (v3n_score5_mem (some v) 0).1
    | (apply normVal_sqrt_mono <;> norm_num)
    | exact fun v => (v3n_sqrt_mem (some v) _ 0).1
    | (apply normVal_linear_mono <;> norm_num)
    | exact fun v => (v3n_linear_mem (some v) _ 0).1
    | (apply normVal_stepped_mono <;>
        first
        | (norm_num [List.Pairwise]; done)
        | (intro s hs; fin_cases hs <;> norm_num))
    | (apply normVal_stepped_nonneg <;>
        first
        | (norm_num [List.Pairwise]; done)
        | (intro s hs; fin_cases hs <;> norm_num))
    | (apply normVal_tiered_mono <;>
        first
        | (intro x hx; fin_cases hx <;> norm_num)
        | (norm_num [List.chain'_cons, List.chain'_singleton]; done))
    | (apply normVal_tiered_nonneg <;>
        (intro x hx; fin_cases hx <;> norm_num))

theorem profileOK_ip_lit_conservative : ProfileOK ip_lit_conservative := by
  apply profileOK_of_forall
  simp only [ip_lit_conservative, CITATIONS_AGGRESSIVE, CITATIONS_STANDARD,
    YEARS_LITIGATION, SCORE5, List.Forall, and_true, MetricOK]
  repeat' apply And.intro
  all_goals
    first
    | (norm_num; done)
    | exact normVal_score5_mono
    | exact fun v => (v3n_score5_mem (some v) 0).1
    | (apply normVal_sqrt_mono <;> norm_num)
    | exact fun v => (v3n_sqrt_mem (some v) _ 0).1
    | (apply normVal_linear_mono <;> norm_num)
    | exact fun v => (v3n_linear_mem (some v) _ 0).1
    | (apply normVal_stepped_mono <;>
        first
        | (norm_num [List.Pairwise]; done)
        | (intro s hs; fin_cases hs <;> norm_num))
    | (apply normVal_stepped_nonneg <;>
        first
        | (norm_num [List.Pairwise]; done)
        | (intro s hs; fin_cases hs <;> norm_num))
    | (apply normVal_tiered_mono <;>
        first
        | (intro x hx; fin_cases hx <;> norm_num)
        | (norm_num [List.chain'_cons, List.chain'_singleton]; done))
    | (apply normVal_tiered_nonneg <;>
        (intro x hx; fin_cases hx <;> norm_num))

theorem profileOK_licensing : ProfileOK licensing := by
  apply profileOK_of_forall
  simp only [licensing, CITATIONS_AGGRESSIVE, CITATIONS_STANDARD,
    YEARS_LITIGATION, SCORE5, List.Forall, and_true, MetricOK]
  repeat' apply And.intro
  all_goals
    first
    | (norm_num; done)
    | exact normVal_score5_mono
    | exact fun v => (v3n_score5_mem (some v) 0).1
    | (apply normVal_sqrt_mono <;> norm_num)
    | exact fun v => (v3n_sqrt_mem (some v) _ 0).1
    | (apply normVal_linear_mono <;> norm_num)
    | exact fun v => (v3n_linear_mem (some v) _ 0).1
    | (apply normVal_stepped_mono <;>
        first
        | (norm_num [List.Pairwise]; done)
        | (intro s hs; fin_cases hs <;> norm_num))
    | (apply normVal_stepped_nonneg <;>
        first
        | (norm_num [List.Pairwise]; done)
        | (intro s hs; fin_cases hs <;> norm_num))
    | (apply normVal_tiered_mono <;>
        first
        | (intro x hx; fin_cases hx <;> norm_num)
        | (norm_num [List.chain'_cons, List.chain'_singleton]; done))
    | (apply normVal_tiered_nonneg <;>
        (intro x hx; fin_cases hx <;> norm_num))

theorem profileOK_corporate_ma : ProfileOK corporate_ma := by
  apply profileOK_of_forall
  simp only [corporate_ma, CITATIONS_AGGRESSIVE, CITATIONS_STANDARD,
    YEARS_LITIGATION, SCORE5, List.Forall, and_true, MetricOK]
  repeat' apply And.intro
  all_goals
    first
    | (norm_num; done)
    | exact normVal_score5_mono
    | exact fun v => (v3n_score5_mem (some v) 0).1
    | (apply normVal_sqrt_mono <;> norm_num)
    | exact fun v => (v3n_sqrt_mem (some v) _ 0).1
    | (apply normVal_linear_mono <;> norm_num)
    | exact fun v => (v3n_linear_mem (some v) _ 0).1
    | (apply normVal_stepped_mono <;>
        first
        | (norm_num [List.Pairwise]; done)
        | (intro s hs; fin_cases hs <;> norm_num))
    | (apply normVal_stepped_nonneg <;>
        first
        | (norm_num [List.Pairwise]; done)
        | (intro s hs; fin_cases hs <;> norm_num))
    | (apply normVal_tiered_mono <;>
        first
        | (intro x hx; fin_cases hx <;> norm_num)
        | (norm_num [List.chain'_cons, List.chain'_singleton]; done))
    | (apply normVal_tiered_nonneg <;>
        (intro x hx; fin_cases hx <;> norm_num))

theorem profileOK_executive : ProfileOK executive := by
  apply profileOK_of_forall
  simp only [executive, CITATIONS_AGGRESSIVE, CITATIONS_STANDARD,
    YEARS_LITIGATION, SCORE5, List.Forall, and_true, MetricOK]
  repeat' apply And.intro
  all_goals
    first
    | (norm_num; done)
    | exact normVal_score5_mono
    | exact fun v => (v3n_score5_mem (some v) 0).1
    | (apply normVal_sqrt_mono <;> norm_num)
    | exact fun v => (v3n_sqrt_mem (some v) _ 0).1
    | (apply normVal_linear_mono <;> norm_num)
    | exact fun v => (v3n_linear_mem (some v) _ 0).1
    | (apply normVal_stepped_mono <;>
        first
        | (norm_num [List.Pairwise]; done)
        | (intro s hs; fin_cases hs <;> norm_num))
    | (apply normVal_stepped_nonneg <;>
        first
        | (norm_num [List.Pairwise]; done)
        | (intro s hs; fin_cases hs <;> norm_num))
    | (apply normVal_tiered_mono <;>
        first
        | (intro x hx; fin_cases hx <;> norm_num)
        | (norm_num [List.chain'_cons, List.chain'_singleton]; done))
    | (apply normVal_tiered_nonneg <;>
        (intro x hx; fin_cases hx <;> norm_num))

theorem catalogOK : ∀ prof ∈ V3_PROFILES, ProfileOK prof := by
  intro prof hp
  simp only [V3_PROFILES, List.mem_cons, List.not_mem_nil, or_false] at hp
  rcases hp with rfl | rfl | rfl | rfl | rfl | rfl
  · exact profileOK_ip_lit_aggressive
  · exact profileOK_ip_lit_balanced
  · exact profileOK_ip_lit_conservative
  · exact profileOK_licensing
  · exact profileOK_corporate_ma
  · exact profileOK_executive

/-! ## C6 -/

/-- C6: for every multiplicative profile of the V3 catalog, every factor of
that profile, and every pair of metric sets that differ only in that factor's
metric fields, where every changed input in the second set is present in both
sets and less than or equal to its value in the first set, the final score on
the second set is at most the final score on the first set: decreasing any one
factor's inputs never increases the final score. -/
theorem c6_decreasing_factor_inputs :
    ∀ prof ∈ V3_PROFILES, ∀ fa ∈ prof.factors,
    ∀ (p1 p2 : Patent) (cap_cc : Option ℝ),
      (∀ f, f ∉ fa.metrics.map MetricW.field → p2 f = p1 f) →
      (∀ f, f ∈ fa.metrics.map MetricW.field →
        p2 f = p1 f ∨ ∃ v1 v2, p1 f = some v1 ∧ p2 f = some v2 ∧ v2 ≤ v1) →
      (compute_v3_profile_score p2 prof cap_cc).1 ≤
        (compute_v3_profile_score p1 prof cap_cc).1 := by
  intro prof hprof fa hfa p1 p2 cap_cc hout hin
  have hok := catalogOK prof hprof
  have hp : ∀ f, p2 f = p1 f ∨
      ∃ v1 v2, p1 f = some v1 ∧ p2 f = some v2 ∧ v2 ≤ v1 := by
    intro f
    by_cases hf : f ∈ fa.metrics.map MetricW.field
    · exact hin f hf
    · exact Or.inl (hout f hf)
  have hfac : ∀ fb ∈ prof.factors,
      factorScore p2 cap_cc fb ≤ factorScore p1 cap_cc fb ∧
      0 ≤ factorScore p2 cap_cc fb := by
    intro fb hfb
    exact ⟨factorScore_mono (hok fb hfb) hp, factorScore_nonneg2 (hok fb hfb)⟩
  have h2 := fold_dict_forall2 (factorScore p1 cap_cc) (factorScore p2 cap_cc)
    prof.factors hfac List.Forall₂.nil
  rw [compute_v3_fst, compute_v3_fst, compute_v3_snd, compute_v3_snd]
  exact mul_le_mul_of_nonneg_right
    (foldl_mul_le h2 (le_refl (1 : ℝ)) (by norm_num)).1 (by norm_num)

theorem c6_decreasing_factor_inputs_witness :
    (compute_v3_profile_score yearsFour ip_lit_aggressive none).1 ≤
      (compute_v3_profile_score yearsTen ip_lit_aggressive none).1 :=
  c6_decreasing_factor_inputs ip_lit_aggressive
    (by simp [V3_PROFILES])
    { name := "Timeline", floor := 0.12,
      metrics := [{ field := "years_remaining", weight := 1.0,
                    normalize := YEARS_LITIGATION }] }
    (by simp [ip_lit_aggressive])
    yearsTen yearsFour none
    (by intro f hf
        simp only [List.map_cons, List.map_nil, List.mem_cons,
          List.not_mem_nil, or_false] at hf
        simp [yearsTen, yearsFour, hf])
    (by intro f hf
        simp only [List.map_cons, List.map_nil, List.mem_cons,
          List.not_mem_nil, or_false] at hf
        right
        exact ⟨10, 4, by simp [yearsTen, hf], by simp [yearsFour, hf],
          by norm_num⟩)

/-! ## New-engine helpers -/

theorem sparseAdd_some_out {v : ℝ} (h : ¬ (1 ≤ v ∧ v ≤ 5)) {f : String}
    {acc : List (String × ℝ) × ℝ} : sparseAdd f (some v) acc = acc := by
  simp [sparseAdd, h]

theorem sparseAdd_none {f : String} {acc : List (String × ℝ) × ℝ} :
    sparseAdd f none acc = acc := rfl

theorem foldl_llmStep_eq {l1 l2 : Patent} {fields : List String}
    (h : ∀ (acc : List (String × ℝ) × ℝ) (g : String), g ∈ fields →
      llmStep l1 acc g = llmStep l2 acc g) :
    ∀ acc, fields.foldl (llmStep l1) acc = fields.foldl (llmStep l2) acc := by
  induction fields with
  | nil => intro acc; rfl
  | cons g t ih =>
    intro acc
    simp only [List.foldl_cons]
    rw [h acc g (List.mem_cons_self g t)]
    exact ih (fun a x hx => h a x (List.mem_cons_of_mem g hx)) _

/-! ## C10 -/

/-- C10: in `compute_new_executive` a sparse 1-5 rated metric contributes only
when its value lies in `[1, 5]`: supplying an out-of-range value for
`ipr_score`, `prosecution_score`, `market_relevance`, or any of the five LLM
fields yields exactly the same score as leaving that metric absent (the weight
is excluded from the renormalization denominator, the value is not clamped). -/
theorem c10_out_of_range_is_absent :
    (∀ (candidate : Patent) (classification llm : Option Patent)
       (cap_cc pros mr : Option ℝ) (v : ℝ), ¬ (1 ≤ v ∧ v ≤ 5) →
      compute_new_executive candidate classification llm cap_cc (some v) pros mr =
      compute_new_executive candidate classification llm cap_cc none pros mr) ∧
    (∀ (candidate : Patent) (classification llm : Option Patent)
       (cap_cc ipr mr : Option ℝ) (v : ℝ), ¬ (1 ≤ v ∧ v ≤ 5) →
      compute_new_executive candidate classification llm cap_cc ipr (some v) mr =
      compute_new_executive candidate classification llm cap_cc ipr none mr) ∧
    (∀ (candidate : Patent) (classification llm : Option Patent)
       (cap_cc ipr pros : Option ℝ) (v : ℝ), ¬ (1 ≤ v ∧ v ≤ 5) →
      compute_new_executive candidate classification llm cap_cc ipr pros (some v) =
      compute_new_executive candidate classification llm cap_cc ipr pros none) ∧
    (∀ (candidate : Patent) (classification : Option Patent) (l : Patent)
       (cap_cc ipr pros mr : Option ℝ) (f : String) (v : ℝ),
      f ∈ NEW_EXEC_LLM_FIELDS → ¬ (1 ≤ v ∧ v ≤ 5) →
      compute_new_executive candidate classification
        (some (fun g => if g = f then some v else l g)) cap_cc ipr pros mr =
      compute_new_executive candidate classification
        (some (fun g => if g = f then none else l g)) cap_cc ipr pros mr) := by
  refine ⟨?_, ?_, ?_, ?_⟩
  · intro candidate classification llm cap_cc pros mr v h
    simp only [compute_new_executive]
    rw [sparseAdd_some_out h, sparseAdd_none]
  · intro candidate classification llm cap_cc ipr mr v h
    simp only [compute_new_executive]
    rw [sparseAdd_some_out h, sparseAdd_none]
  · intro candidate classification llm cap_cc ipr pros v h
    simp only [compute_new_executive]
    rw [sparseAdd_some_out h, sparseAdd_none]
  · intro candidate classification l cap_cc ipr pros mr f v hf h
    simp only [compute_new_executive]
    apply congrArg (newExecFinish _)
    apply congrArg (sparseAdd "prosecution_quality_score" pros)
    apply congrArg (sparseAdd "ipr_risk_score" ipr)
    apply congrArg (sparseAdd "market_relevance_score" mr)
    simp only [newExecLlm]
    apply foldl_llmStep_eq
    intro acc g _
    by_cases hgf : g = f
    · have h1 : pget (fun g2 => if g2 = f then some v else l g2) g 0 = v := by
        simp [pget, hgf]
      have h2 : pget (fun g2 => if g2 = f then none else l g2) g 0 = 0 := by
        simp [pget, hgf]
      rw [llmStep, llmStep, h1, h2, if_neg h, if_neg (by norm_num)]
    · have h12 : pget (fun g => if g = f then some v else l g) g 0 =
          pget (fun g => if g = f then none else l g) g 0 := by
        simp [pget, hgf]
      rw [llmStep, llmStep, h12]

theorem c10_out_of_range_is_absent_witness :
    ¬ ((1 : ℝ) ≤ 7 ∧ (7 : ℝ) ≤ 5) ∧
    compute_new_executive emptyPatent none none none (some 7) none none =
    compute_new_executive emptyPatent none none none none none none :=
  ⟨by norm_num,
   c10_out_of_range_is_absent.1 emptyPatent none none none none none 7
     (by norm_num)⟩

end CompareV3
